import Mathlib

namespace Rag

/-!
Verification of the RAG subsystem of `my-mastra-app`

This development gives a shallow embedding, in Lean 4, of the
retrieval-augmented-generation (RAG) pipeline of the repository:

* `src/mastra/tools/rag/chunkers/base.ts` — token estimation, the line-based
  chunker and the paragraph-based chunker;
* `src/mastra/tools/rag/chunkers/code.ts` — the AST-based code chunker;
* `src/mastra/tools/rag/embeddings.ts` — chunk-id hashing (SHA-256) and the
  batched, retried embedding driver;
* `src/mastra/tools/rag/db.ts` — the libsql-backed vector store
  (`saveChunks`, `search`);
* `src/mastra/tools/rag/processor.ts` — the per-file orchestration
  (`processFile`, `processFiles`).

JavaScript strings are modelled as `List Char` (all inputs in this
development lie in the Basic Multilingual Plane, where JavaScript's UTF-16
`length` coincides with the number of characters).  JavaScript numbers that
hold integral values are modelled as `Int`.  External effects (filesystem,
embedding provider, parser, statement-level database failures) are modelled
as explicit oracle arguments.
-/

/-- JavaScript strings, as lists of characters (BMP only, see the header). -/
abbrev Str := List Char

/-- Character class of the regex `[a-zA-Z0-9]` used by
`BaseChunker.estimateTokenCount` (base.ts, line 67). -/
def isAlphanumeric (c : Char) : Bool :=
  (('a' ≤ c) && (c ≤ 'z')) || (('A' ≤ c) && (c ≤ 'Z')) || (('0' ≤ c) && (c ≤ '9'))

/-- Model of `BaseChunker.estimateTokenCount` (base.ts, lines 65–70):
`text.replace(/[^a-zA-Z0-9]/g, '')` keeps exactly the characters matching
`[a-zA-Z0-9]`, so `alphanumeric` is the length of the filtered string;
`others = text.length - alphanumeric`; result `alphanumeric + others * 2`. -/
def estimateTokenCount (text : Str) : Int :=
  let alphanumeric : Int := ((text.filter isAlphanumeric).length : Int)
  let others : Int := (text.length : Int) - alphanumeric
  alphanumeric + others * 2

/-- The token-count formula as worded by the specification:
`alphanumericCount*1 + (length - alphanumericCount)*2` where
`alphanumericCount` counts the characters matching `[a-zA-Z0-9]`.
(Spec-side definition, for comparison with `estimateTokenCount`.) -/
def specTokenEstimate (text : Str) : Int :=
  let alphanumericCount : Int := (text.countP (fun c => isAlphanumeric c) : Int)
  alphanumericCount * 1 + ((text.length : Int) - alphanumericCount) * 2

/-! ## Data model (`rag/types.ts`, `rag/chunkers/base.ts`) -/

/-- Model of `FileType` (types.ts): the file-type tags produced by
`FileProcessor.detectFileType`. -/
inductive FileType
  | typescript
  | javascript
  | markdown
  | json
  | yaml
  | text
deriving DecidableEq, Repr

/-- The `additionalMetadata` objects the chunkers attach (code.ts):
`{nodeType: 'imports'}`, `{nodeType, name, hasComments}`, or
`{nodeType: 'export'}`.  Absent object fields are modelled as `none`. -/
structure AddMeta where
  nodeType : Str
  name : Option Str := none
  hasComments : Option Bool := none
deriving DecidableEq, Repr

/-- Model of `ChunkMetadata` (types.ts / base.ts `createMetadata`). -/
structure ChunkMetadata where
  filePath : Str
  fileType : FileType
  startPosition : Int
  endPosition : Int
  tokenCount : Int
  createdAt : Str
  additionalMetadata : Option AddMeta := none
deriving DecidableEq, Repr

/-- Model of `ChunkResult` (base.ts). -/
structure ChunkResult where
  content : Str
  metadata : ChunkMetadata
deriving DecidableEq, Repr

/-- Model of `ChunkerConfig` (base.ts).  The `strategy` and `options` fields are never
read by any chunker, so they are omitted from the model. -/
structure ChunkerConfig where
  maxTokens : Option Int := none
  overlap : Option Int := none
deriving DecidableEq, Repr

/-- The ambient state a `BaseChunker` instance carries: constructor arguments
`filePath` and `fileType`, plus the value `new Date().toISOString()` returns
while the chunker runs (modelled as a fixed string `now`). -/
structure ChunkerCtx where
  filePath : Str
  fileType : FileType
  now : Str
deriving DecidableEq, Repr

/-- Model of `BaseChunker.createMetadata` (base.ts, lines 75–90). -/
def createMetadata (ctx : ChunkerCtx) (startPosition endPosition tokenCount : Int)
    (additionalMetadata : Option AddMeta) : ChunkMetadata :=
  { filePath := ctx.filePath
    fileType := ctx.fileType
    startPosition := startPosition
    endPosition := endPosition
    tokenCount := tokenCount
    createdAt := ctx.now
    additionalMetadata := additionalMetadata }

/-- JavaScript `x || d` for an optional numeric field: `undefined`, `null`
and `0` are falsy, every other number is returned unchanged. -/
def jsOrNum (x : Option Int) (d : Int) : Int :=
  match x with
  | none => d
  | some v => if v = 0 then d else v

/-- JavaScript `Array.prototype.slice(start)` with a single (possibly
negative) start index: a negative start counts from the end (clamped at 0),
a nonnegative start drops that many leading elements.  In particular
`slice(-0) = slice(0)` returns the whole array. -/
def jsSliceFrom (l : List α) (start : Int) : List α :=
  let len : Int := l.length
  let rel : Int := if start < 0 then max (len + start) 0 else min start len
  l.drop rel.toNat

/-- Model of `currentChunk.join('\n')`. -/
def joinLines (lines : List Str) : Str :=
  List.intercalate ['\n'] lines

/-- Model of `currentChunk.reduce((sum, line) => sum + estimateTokenCount(line), 0)`. -/
def sumTokens (lines : List Str) : Int :=
  lines.foldl (fun sum line => sum + estimateTokenCount line) 0

/-! ## `LineChunker.chunk` (base.ts, lines 97–150)

The loop over `lines` is modelled by structural recursion on the remaining
lines; `i` is the loop index, `cur`/`curTokens`/`startLine` are the mutable
`currentChunk`/`currentTokens`/`startLine`, and `n` is `lines.length`
(used by the trailing flush).  The source pushes the current line and adds
its tokens unconditionally after the (guarded) flush block. -/

def lineChunkAux (ctx : ChunkerCtx) (maxT ov : Int) (n : Nat) :
    List Str → Nat → List Str → Int → Int → List ChunkResult
  | [], _i, cur, curTokens, startLine =>
    if 0 < cur.length then
      [⟨joinLines cur, createMetadata ctx startLine ((n : Int) - 1) curTokens none⟩]
    else []
  | line :: rest, i, cur, curTokens, startLine =>
    let lineTokens := estimateTokenCount line
    if curTokens + lineTokens > maxT ∧ 0 < cur.length then
      let flushed : ChunkResult :=
        ⟨joinLines cur, createMetadata ctx startLine ((i : Int) - 1) curTokens none⟩
      let overlapLines : Int := min ov (cur.length : Int)
      let cur2 := jsSliceFrom cur (-overlapLines)
      flushed ::
        lineChunkAux ctx maxT ov n rest (i + 1) (cur2 ++ [line])
          (sumTokens cur2 + lineTokens) ((i : Int) - overlapLines)
    else
      lineChunkAux ctx maxT ov n rest (i + 1) (cur ++ [line])
        (curTokens + lineTokens) startLine

/-- Model of `LineChunker.chunk`: split on `'\n'`, then run the accumulation loop.
`maxTokens` defaults to 1000 and `overlap` to 0 via JavaScript `||`. -/
def lineChunk (ctx : ChunkerCtx) (config : ChunkerConfig) (text : Str) : List ChunkResult :=
  let lines := text.splitOn '\n'
  lineChunkAux ctx (jsOrNum config.maxTokens 1000) (jsOrNum config.overlap 0)
    lines.length lines 0 [] 0 0

/-! ## `ParagraphChunker.chunk` (base.ts, lines 157–202)

`text.split(/\n\s*\n/)`: the separator is a newline, a greedy run of
whitespace, and a final newline.  A match therefore starts at a `'\n'`,
consumes the longest whitespace prefix that still leaves a `'\n'` as the
final matched character.  `splitBlank` scans left to right for the leftmost
such match, exactly as the regex engine does. -/

/-- JavaScript regex `\s` on the characters appearing in this development:
space, tab, newline, carriage return, vertical tab, form feed, NBSP. -/
def isJsWhitespace (c : Char) : Bool :=
  c = ' ' || c = '\t' || c = '\n' || c = '\r' ||
  c = Char.ofNat 11 || c = Char.ofNat 12 || c = Char.ofNat 160

/-- Index of the last `'\n'` in a character run, if any. -/
def lastNewlineIdx (run : Str) : Option Nat :=
  match run.reverse.findIdx? (· = '\n') with
  | some j => some (run.length - 1 - j)
  | none => none

/-- If the text starts with a match of `/\n\s*\n/`, return the match length:
the leading `'\n'`, then the greedy-with-backtracking `\s*` ends at the last
`'\n'` inside the maximal whitespace run that follows. -/
def blankMatchAt : Str → Option Nat
  | [] => none
  | c :: rest =>
    if c = '\n' then
      let run := rest.takeWhile isJsWhitespace
      match lastNewlineIdx run with
      | some t => some (t + 2)
      | none => none
    else none

/-- Model of `String.prototype.split` with the regex `/\n\s*\n/`: cut the text at each
leftmost match, dropping the matched separator. -/
def splitBlankAux : Str → Str → List Str
  | [], acc => [acc.reverse]
  | c :: rest, acc =>
    match hm : blankMatchAt (c :: rest) with
    | some len => acc.reverse :: splitBlankAux ((c :: rest).drop len) []
    | none => splitBlankAux rest (c :: acc)
termination_by s _ => s.length
decreasing_by
  · have hpos : 0 < len := by
      simp only [blankMatchAt] at hm
      by_cases hc : c = '\n'
      · simp only [hc, if_true] at hm
        rcases hmatch : lastNewlineIdx (rest.takeWhile isJsWhitespace) with _ | t
        · rw [hmatch] at hm; simp at hm
        · rw [hmatch] at hm; simp at hm; omega
      · simp [hc] at hm
    simp only [List.length_drop, List.length_cons]
    omega
  · simp only [List.length_cons]
    omega

def splitBlank (text : Str) : List Str :=
  splitBlankAux text []

/-- Model of `currentChunk.join('\n\n')`. -/
def joinParagraphs (paragraphs : List Str) : Str :=
  List.intercalate ['\n', '\n'] paragraphs

/-- The loop of `ParagraphChunker.chunk`: `curPos` is `currentPosition`
(already incremented by `paragraph.length + 2` before the flush test, as in
the source), `startPos` is `startPosition`. -/
def paragraphChunkAux (ctx : ChunkerCtx) (maxT : Int) :
    List Str → List Str → Int → Int → Int → List ChunkResult
  | [], cur, curTokens, startPos, curPos =>
    if 0 < cur.length then
      [⟨joinParagraphs cur, createMetadata ctx startPos curPos curTokens none⟩]
    else []
  | p :: rest, cur, curTokens, startPos, curPos =>
    let pTokens := estimateTokenCount p
    let curPos2 := curPos + (p.length : Int) + 2
    if curTokens + pTokens > maxT ∧ 0 < cur.length then
      ⟨joinParagraphs cur, createMetadata ctx startPos (curPos2 - 2) curTokens none⟩ ::
        paragraphChunkAux ctx maxT rest [p] pTokens (curPos2 - (p.length : Int) - 2) curPos2
    else
      paragraphChunkAux ctx maxT rest (cur ++ [p]) (curTokens + pTokens) startPos curPos2

/-- Model of `ParagraphChunker.chunk`: split on blank-line runs, then accumulate.
The paragraph chunker reads only `maxTokens` (default 1000); unlike the line
chunker it resets the accumulator on flush instead of seeding overlap. -/
def paragraphChunk (ctx : ChunkerCtx) (config : ChunkerConfig) (text : Str) : List ChunkResult :=
  paragraphChunkAux ctx (jsOrNum config.maxTokens 1000) (splitBlank text) [] 0 0 0

/-- A fixed chunker context used by the concrete examples. -/
def exampleCtx : ChunkerCtx := ⟨("f.txt").data, .text, []⟩

/-- Decidable form of the metadata invariant of claim C9:
`startPosition ≤ endPosition` and `tokenCount ≥ 0`. -/
def chunkInvariant (c : ChunkResult) : Bool :=
  decide (c.metadata.startPosition ≤ c.metadata.endPosition) &&
  decide (0 ≤ c.metadata.tokenCount)

/-! ## `CodeChunker` (code.ts)

The parser `@typescript-eslint/typescript-estree` is an external library; the
chunker consumes only each top-level node's `type`, `range`, `loc` and (for
declarations) `id.name`, and the attached `comments`, so the AST model
carries exactly those projections.  Per ESTree, `export function f(){}` is a
single `ExportNamedDeclaration` element of `Program.body` whose `declaration`
field holds the `FunctionDeclaration`; the function is not itself an element
of `Program.body` (the chunker never reads `declaration`, so that field is
not modelled). -/

/-- ESTree node types distinguished by `CodeChunker`. -/
inductive NodeType
  | importDeclaration
  | functionDeclaration
  | classDeclaration
  | tsInterfaceDeclaration
  | tsTypeAliasDeclaration
  | exportNamedDeclaration
  | exportDefaultDeclaration
  | otherStatement
deriving DecidableEq, Repr

/-- The estree `type` string, as stored in `additionalMetadata.nodeType`. -/
def nodeTypeName : NodeType → Str
  | .importDeclaration => ("ImportDeclaration").data
  | .functionDeclaration => ("FunctionDeclaration").data
  | .classDeclaration => ("ClassDeclaration").data
  | .tsInterfaceDeclaration => ("TSInterfaceDeclaration").data
  | .tsTypeAliasDeclaration => ("TSTypeAliasDeclaration").data
  | .exportNamedDeclaration => ("ExportNamedDeclaration").data
  | .exportDefaultDeclaration => ("ExportDefaultDeclaration").data
  | .otherStatement => ("Statement").data

/-- A top-level AST node: `type`, `range` ([start, end) character offsets),
`loc` start/end lines, and `id.name` when the declaration has one. -/
structure AstNode where
  type : NodeType
  rangeStart : Nat
  rangeEnd : Nat
  locStartLine : Int
  locEndLine : Int
  idName : Option Str := none
deriving DecidableEq, Repr

/-- A comment node: its text `value` and `range`. -/
structure AstComment where
  value : Str
  rangeStart : Nat
  rangeEnd : Nat
deriving DecidableEq, Repr

/-- The parse result consumed by `CodeChunker.chunk`. -/
structure Ast where
  body : List AstNode
  comments : List AstComment
deriving DecidableEq, Repr

/-- Model of `CodeChunkerConfig` (code.ts): `ChunkerConfig` plus the AST options.
Optional boolean fields are truthy only when present and `true`. -/
structure CodeChunkerConfig extends ChunkerConfig where
  minNodeSize : Option Int := none
  includeImports : Option Bool := none
  includeComments : Option Bool := none
deriving DecidableEq, Repr

/-- JavaScript truthiness of an optional boolean field. -/
def jsTruthy (b : Option Bool) : Bool :=
  b = some true

/-- Model of `text.slice(a, b)` for nonnegative indices. -/
def jsSliceRange (l : List α) (a b : Nat) : List α :=
  (l.take b).drop a

/-- Model of `CodeChunker.isDeclarationNode` (code.ts, lines 145–158). -/
def isDeclarationNode (t : NodeType) : Bool :=
  t = .functionDeclaration || t = .classDeclaration ||
  t = .tsInterfaceDeclaration || t = .tsTypeAliasDeclaration

/-- Model of `CodeChunker.getNodeName` (code.ts, lines 163–174). -/
def getNodeName (node : AstNode) : Str :=
  match node.idName with
  | some n => n
  | none => ("anonymous").data

/-- Model of `CodeChunker.findLeadingComments` (code.ts, lines 179–193): the comments
ending at or before the node start that no other such comment ends after
(`other !== comment` is modelled as structural inequality; the parser never
attaches two identical comment nodes). -/
def findLeadingComments (comments : List AstComment) (nodeStart : Nat) : List AstComment :=
  comments.filter (fun comment =>
    comment.rangeEnd ≤ nodeStart &&
    !(comments.any (fun other =>
        other ≠ comment && other.rangeEnd ≤ nodeStart && other.rangeEnd > comment.rangeEnd)))

/-- The comment-wrapped content `/*${leadingComments}*/\n${nodeText}`. -/
def wrapWithComments (leadingComments nodeText : Str) : Str :=
  ('/' :: '*' :: []) ++ leadingComments ++ ('*' :: '/' :: '\n' :: []) ++ nodeText

/-- The declaration pass of `CodeChunker.chunk` (code.ts, lines 80–114),
for one node of `ast.body`. -/
def declChunksOf (ctx : ChunkerCtx) (cfg : CodeChunkerConfig) (text : Str)
    (allComments : List AstComment) (node : AstNode) : List ChunkResult :=
  if isDeclarationNode node.type then
    let nodeText := jsSliceRange text node.rangeStart node.rangeEnd
    let lines : Int := ((nodeText.splitOn '\n').length : Int)
    if lines ≥ jsOrNum cfg.minNodeSize 1 then
      let comments :=
        if jsTruthy cfg.includeComments then findLeadingComments allComments node.rangeStart
        else []
      let leadingComments :=
        if 0 < comments.length then joinLines (comments.map (fun c => c.value)) else []
      let finalContent :=
        if 0 < comments.length then wrapWithComments leadingComments nodeText else nodeText
      [⟨finalContent,
        createMetadata ctx node.locStartLine node.locEndLine
          (estimateTokenCount finalContent)
          (some { nodeType := nodeTypeName node.type
                  name := some (getNodeName node)
                  hasComments := some (0 < leadingComments.length) })⟩]
    else []
  else []

/-- Model of `CodeChunker.chunk` (code.ts, lines 41–140), applied to an already
parsed AST: the import pass (one chunk spanning from the first to the last
`ImportDeclaration`), the declaration pass, then the export pass (one chunk
per `ExportNamedDeclaration`/`ExportDefaultDeclaration`, regardless of
size).  A parse failure is handled at the caller (`ChunkingError`). -/
def codeChunk (ctx : ChunkerCtx) (cfg : CodeChunkerConfig) (text : Str) (ast : Ast) :
    List ChunkResult :=
  let importChunks :=
    if jsTruthy cfg.includeImports then
      match ast.body.filter (fun n => n.type = .importDeclaration) with
      | [] => []
      | imp0 :: rest =>
        let impLast := (imp0 :: rest).getLast (List.cons_ne_nil _ _)
        let importText := jsSliceRange text imp0.rangeStart impLast.rangeEnd
        [⟨importText,
          createMetadata ctx imp0.locStartLine impLast.locEndLine
            (estimateTokenCount importText) (some { nodeType := ("imports").data })⟩]
    else []
  let declChunks := ast.body.flatMap (declChunksOf ctx cfg text ast.comments)
  let exportChunks :=
    (ast.body.filter (fun n =>
        n.type = .exportNamedDeclaration ∨ n.type = .exportDefaultDeclaration)).map
      (fun node =>
        let nodeText := jsSliceRange text node.rangeStart node.rangeEnd
        ⟨nodeText,
         createMetadata ctx node.locStartLine node.locEndLine
           (estimateTokenCount nodeText) (some { nodeType := ("export").data })⟩)
  importChunks ++ declChunks ++ exportChunks

/-! ## Claim C2: the AST chunker on `import x from 'y'; export function f(){ return 1; }` -/

/-- The C2 input file. -/
def textC2 : Str := ("import x from 'y'; export function f(){ return 1; }").data

/-- The parse of `textC2` per `@typescript-eslint/typescript-estree`
(ESTree): `Program.body` holds the `ImportDeclaration` (range `[0, 18)`) and
one `ExportNamedDeclaration` (range `[19, 51)`) whose `declaration` field —
not a separate body element — is the `FunctionDeclaration` for `f`.
Everything is on line 1. -/
def astC2 : Ast :=
  { body := [
      { type := .importDeclaration, rangeStart := 0, rangeEnd := 18,
        locStartLine := 1, locEndLine := 1 },
      { type := .exportNamedDeclaration, rangeStart := 19, rangeEnd := textC2.length,
        locStartLine := 1, locEndLine := 1 }
    ],
    comments := [] }

/-- The C2 chunker configuration: `minNodeSize = 1`, `includeImports = true`. -/
def cfgC2 : CodeChunkerConfig :=
  { minNodeSize := some 1, includeImports := some true }

/-- The chunker context for the C2 run. -/
def ctxC2 : ChunkerCtx := ⟨("a.ts").data, .typescript, []⟩

/-- Well-formedness of a parsed AST, guaranteed by the parser: every node's
start line is at most its end line, and the top-level nodes appear in source
order (their end lines are pairwise monotone). -/
def wellFormedAst (ast : Ast) : Bool :=
  ast.body.all (fun n => decide (n.locStartLine ≤ n.locEndLine)) &&
  decide (ast.body.Pairwise (fun a b => a.locEndLine ≤ b.locEndLine))

/-- A small well-formed AST used by the C9 witness. -/
def astW : Ast :=
  { body := [{ type := .functionDeclaration, rangeStart := 0, rangeEnd := 14,
               locStartLine := 1, locEndLine := 1, idName := some ("g").data }],
    comments := [] }

/-! ## `OpenAIEmbedding` (embeddings.ts)

`generateChunkId` is `createHash('sha256').update(content + ':' +
JSON.stringify(metadata)).digest('hex')`; SHA-256 is implemented below over
byte lists, with its round constants computed from the fractional parts of
the square/cube roots of the first primes, as in FIPS 180-4. -/

/-- UTF-8 encoding of one character (Node hashes strings as UTF-8). -/
def utf8EncodeChar (c : Char) : List Nat :=
  let n := c.toNat
  if n < 128 then [n]
  else if n < 2048 then [192 + n / 64, 128 + n % 64]
  else if n < 65536 then [224 + n / 4096, 128 + n / 64 % 64, 128 + n % 64]
  else [240 + n / 262144, 128 + n / 4096 % 64, 128 + n / 64 % 64, 128 + n % 64]

def utf8Encode (s : Str) : List Nat :=
  s.flatMap utf8EncodeChar

/-- Truncation to a 32-bit word. -/
def w32 (x : Nat) : Nat := x % 4294967296

/-- Right rotation of a 32-bit word: the low `n` bits move to the top. -/
def rotr32 (n x : Nat) : Nat := x / 2 ^ n + x % 2 ^ n * 2 ^ (32 - n)

def shaCh (x y z : Nat) : Nat := (x &&& y) ^^^ ((4294967295 - x) &&& z)

def shaMaj (x y z : Nat) : Nat := (x &&& y) ^^^ (x &&& z) ^^^ (y &&& z)

def shaBigSigma0 (x : Nat) : Nat := rotr32 2 x ^^^ rotr32 13 x ^^^ rotr32 22 x

def shaBigSigma1 (x : Nat) : Nat := rotr32 6 x ^^^ rotr32 11 x ^^^ rotr32 25 x

def shaSmallSigma0 (x : Nat) : Nat := rotr32 7 x ^^^ rotr32 18 x ^^^ x / 2 ^ 3

def shaSmallSigma1 (x : Nat) : Nat := rotr32 17 x ^^^ rotr32 19 x ^^^ x / 2 ^ 10

def first64Primes : List Nat :=
  [2, 3, 5, 7, 11, 13, 17, 19, 23, 29, 31, 37, 41, 43, 47, 53,
   59, 61, 67, 71, 73, 79, 83, 89, 97, 101, 103, 107, 109, 113, 127, 131,
   137, 139, 149, 151, 157, 163, 167, 173, 179, 181, 191, 193, 197, 199, 211, 223,
   227, 229, 233, 239, 241, 251, 257, 263, 269, 271, 277, 281, 283, 293, 307, 311]

/-- Integer cube root by fuelled binary search (invariant `lo³ ≤ n < hi³`). -/
def icbrtAux (n : Nat) : Nat → Nat → Nat → Nat
  | lo, _hi, 0 => lo
  | lo, hi, fuel + 1 =>
    if hi ≤ lo + 1 then lo
    else
      let mid := (lo + hi) / 2
      if mid ^ 3 ≤ n then icbrtAux n mid hi fuel else icbrtAux n lo mid fuel

def icbrt (n : Nat) : Nat := icbrtAux n 0 (n + 1) 200

/-- The 64 SHA-256 round constants: the first 32 bits of the fractional
parts of the cube roots of the first 64 primes. -/
def shaK : List Nat := first64Primes.map (fun p => w32 (icbrt (p * 2 ^ 96)))

/-- The initial hash state: first 32 bits of the fractional parts of the
square roots of the first 8 primes. -/
def shaH0 : List Nat := (first64Primes.take 8).map (fun p => w32 (Nat.sqrt (p * 2 ^ 64)))

/-- Big-endian 64-bit length field. -/
def be64 (n : Nat) : List Nat :=
  [n / 2 ^ 56 % 256, n / 2 ^ 48 % 256, n / 2 ^ 40 % 256, n / 2 ^ 32 % 256,
   n / 2 ^ 24 % 256, n / 2 ^ 16 % 256, n / 2 ^ 8 % 256, n % 256]

/-- SHA-256 padding: `0x80`, zeros to 56 mod 64, then the bit length. -/
def shaPad (msg : List Nat) : List Nat :=
  msg ++ [128] ++ List.replicate ((119 - msg.length % 64) % 64) 0 ++ be64 (8 * msg.length)

/-- Big-endian 32-bit words from bytes. -/
def bytesToWords : List Nat → List Nat
  | b0 :: b1 :: b2 :: b3 :: rest => (((b0 * 256 + b1) * 256 + b2) * 256 + b3) :: bytesToWords rest
  | _ => []

/-- Split a word list into 16-word blocks. -/
def toBlocks : List Nat → List (List Nat)
  | [] => []
  | w :: rest => (w :: rest).take 16 :: toBlocks ((w :: rest).drop 16)
termination_by l => l.length
decreasing_by simp only [List.length_drop, List.length_cons]; omega

/-- The next word of the message schedule, from the last 16 computed. -/
def shaNextW (ws : List Nat) : Nat :=
  let i := ws.length
  w32 (shaSmallSigma1 (ws.getD (i - 2) 0) + ws.getD (i - 7) 0 +
       shaSmallSigma0 (ws.getD (i - 15) 0) + ws.getD (i - 16) 0)

/-- Extend a 16-word block by `k` schedule words. -/
def buildSchedule (ws : List Nat) : Nat → List Nat
  | 0 => ws
  | k + 1 => buildSchedule (ws ++ [shaNextW ws]) k

/-- One compression round on the 8-register state. -/
def compressRound (st : List Nat) (wk : Nat × Nat) : List Nat :=
  match st with
  | [a, b, c, d, e, f, g, h] =>
    let t1 := w32 (h + shaBigSigma1 e + shaCh e f g + wk.2 + wk.1)
    let t2 := w32 (shaBigSigma0 a + shaMaj a b c)
    [w32 (t1 + t2), a, b, c, w32 (d + t1), e, f, g]
  | _ => st

/-- Compress one 16-word block into the state and add the feed-forward. -/
def compressBlock (st : List Nat) (block : List Nat) : List Nat :=
  let ws := buildSchedule block 48
  let st2 := (ws.zip shaK).foldl compressRound st
  (st.zip st2).map (fun p => w32 (p.1 + p.2))

/-- SHA-256 digest (32 bytes) of a byte list. -/
def sha256 (msg : List Nat) : List Nat :=
  let final := (toBlocks (bytesToWords (shaPad msg))).foldl compressBlock shaH0
  final.flatMap (fun w => [w / 2 ^ 24 % 256, w / 2 ^ 16 % 256, w / 2 ^ 8 % 256, w % 256])

def hexDigit (n : Nat) : Char :=
  if n < 10 then Char.ofNat (48 + n) else Char.ofNat (87 + n)

def bytesToHex (bs : List Nat) : Str :=
  bs.flatMap (fun b => [hexDigit (b / 16), hexDigit (b % 16)])

/-- Model of `createHash('sha256').update(s).digest('hex')` on a JS string. -/
def sha256Hex (s : Str) : Str :=
  bytesToHex (sha256 (utf8Encode s))

/-! ### `JSON.stringify` of chunk metadata -/

/-- Decimal rendering of an integer. -/
def intToStr (i : Int) : Str := (toString i).data

/-- Decimal rendering of a natural number. -/
def natToStr (n : Nat) : Str := (toString n).data

/-- JSON string escaping (the characters appearing in this development). -/
def jsonEscapeChar (c : Char) : Str :=
  if c = '"' then ['\\', '"']
  else if c = '\\' then ['\\', '\\']
  else if c = '\n' then ['\\', 'n']
  else if c = '\r' then ['\\', 'r']
  else if c = '\t' then ['\\', 't']
  else [c]

def jsonString (s : Str) : Str :=
  '"' :: s.flatMap jsonEscapeChar ++ ['"']

def jsonBool (b : Bool) : Str :=
  if b then ("true").data else ("false").data

/-- The `FileType` union member as its string value. -/
def fileTypeName : FileType → Str
  | .typescript => ("typescript").data
  | .javascript => ("javascript").data
  | .markdown => ("markdown").data
  | .json => ("json").data
  | .yaml => ("yaml").data
  | .text => ("text").data

/-- Model of `JSON.stringify` of an `additionalMetadata` object, fields in creation
order, absent fields omitted. -/
def serializeAddMeta (m : AddMeta) : Str :=
  ('\x7b' :: ("\"nodeType\":").data ++ jsonString m.nodeType) ++
  (match m.name with
   | some n => ',' :: ("\"name\":").data ++ jsonString n
   | none => []) ++
  (match m.hasComments with
   | some b => ',' :: ("\"hasComments\":").data ++ jsonBool b
   | none => []) ++ ['\x7d']

/-- Model of `JSON.stringify(metadata)`: fields in the creation order of
`createMetadata`; `additionalMetadata` is omitted when `undefined`
(JSON.stringify drops undefined-valued properties). -/
def serializeMetadata (m : ChunkMetadata) : Str :=
  ('\x7b' :: ("\"filePath\":").data ++ jsonString m.filePath) ++
  (',' :: ("\"fileType\":").data ++ jsonString (fileTypeName m.fileType)) ++
  (',' :: ("\"startPosition\":").data ++ intToStr m.startPosition) ++
  (',' :: ("\"endPosition\":").data ++ intToStr m.endPosition) ++
  (',' :: ("\"tokenCount\":").data ++ intToStr m.tokenCount) ++
  (',' :: ("\"createdAt\":").data ++ jsonString m.createdAt) ++
  (match m.additionalMetadata with
   | some a => ',' :: ("\"additionalMetadata\":").data ++ serializeAddMeta a
   | none => []) ++ ['\x7d']

/-- Model of `OpenAIEmbedding.generateChunkId` (embeddings.ts, lines 101–104):
SHA-256 of `` `${chunk.content}:${JSON.stringify(chunk.metadata)}` ``,
as a hex string. -/
def generateChunkId (chunk : ChunkResult) : Str :=
  sha256Hex (chunk.content ++ ':' :: serializeMetadata chunk.metadata)

/-- A `Chunk` (types.ts): a `ChunkResult` plus its id and optional embedding
vector.  Embedding components are modelled as integers (exactly
representable in float32; every vector in this development is 0/1-valued). -/
structure Chunk where
  id : Str
  content : Str
  metadata : ChunkMetadata
  embedding : Option (List Int) := none
deriving DecidableEq, Repr

/-- The error classes of the taxonomy (types.ts / embeddings.ts):
`ChunkingError`, `EmbeddingError`, `DatabaseError`, `ProcessorError`, and
any other thrown error. -/
inductive JsError
  | chunking (msg : Str)
  | embedding (msg : Str)
  | database (msg : Str)
  | processor (msg : Str)
  | generic (msg : Str)
deriving DecidableEq, Repr

/-- The string ``  `Failed to embed chunk after ${maxRetries} retries` ``. -/
def retryFailMsg (maxRetries : Nat) : Str :=
  ("Failed to embed chunk after ").data ++ natToStr maxRetries ++ (" retries").data

/-- The recursion of `embedChunkWithRetry`, structured on the number
`remaining = maxRetries - retryCount` of retries still allowed: the
source's guard `retryCount < maxRetries` holds exactly when
`maxRetries - retryCount > 0`. -/
def embedRetryGo (maxRetries : Nat) (attempts : Nat → Except Unit (List Int))
    (chunk : ChunkResult) : Nat → Nat → Except JsError Chunk
  | retryCount, remaining =>
    match attempts retryCount, remaining with
    | .ok embedding, _ =>
      .ok { id := generateChunkId chunk, content := chunk.content,
            metadata := chunk.metadata, embedding := some embedding }
    | .error _, r + 1 => embedRetryGo maxRetries attempts chunk (retryCount + 1) r
    | .error _, 0 => .error (.embedding (retryFailMsg maxRetries))

/-- Model of `OpenAIEmbedding.embedChunkWithRetry` (embeddings.ts, lines 137–161).
The provider call of the `retryCount`-th attempt is `attempts retryCount`
(the `retryDelay` sleep has no observable effect and is not modelled).
On failure the code retries while `retryCount < maxRetries`, so the error
is thrown only when attempt number `maxRetries` (the `maxRetries+1`-th
call) fails. -/
def embedChunkWithRetry (maxRetries : Nat) (attempts : Nat → Except Unit (List Int))
    (chunk : ChunkResult) (retryCount : Nat) : Except JsError Chunk :=
  embedRetryGo maxRetries attempts chunk retryCount (maxRetries - retryCount)

/-- Model of `OpenAIEmbedding.createBatches` (embeddings.ts, lines 126–132).  The
source loop (`i += batchSize`) diverges for `batchSize = 0`; that case is
unreachable (default 100) and modelled as producing no batches. -/
def createBatches (items : List α) (batchSize : Nat) : List (List α) :=
  match items, batchSize with
  | [], _ => []
  | _ :: _, 0 => []
  | x :: rest, k + 1 =>
    (x :: rest).take (k + 1) :: createBatches ((x :: rest).drop (k + 1)) (k + 1)
termination_by items.length
decreasing_by simp only [List.length_drop, List.length_cons]; omega

/-- Model of `Promise.all` over fallible chunk embeddings: results in input order;
a rejection rejects the whole batch (modelled as the first error in list
order). -/
def mapAllExcept (f : α → Except ε β) : List α → Except ε (List β)
  | [] => .ok []
  | x :: xs => do
    let y ← f x
    let ys ← mapAllExcept f xs
    pure (y :: ys)

/-- Model of `OpenAIEmbedding.embedChunks` (embeddings.ts, lines 109–121): batches
are processed sequentially, each batch fanned out with `Promise.all`;
`provider text attempt` is the embedding provider's answer for the given
chunk text on the given attempt number. -/
def embedChunks (maxRetries batchSize : Nat)
    (provider : Str → Nat → Except Unit (List Int))
    (chunks : List ChunkResult) : Except JsError (List Chunk) :=
  (createBatches chunks batchSize).foldlM
    (fun results batch => do
      let batchResults ← mapAllExcept
        (fun c => embedChunkWithRetry maxRetries (provider c.content) c 0) batch
      pure (results ++ batchResults))
    []

/-! ## `VectorStore` (db.ts)

The store is the pair of tables created by `initialize`: `chunks`
(rowid, TEXT primary key `id`, content, metadata JSON, embedding BLOB) and
the fts5 index `chunks_fts` keyed by rowid.  `INSERT OR REPLACE` into
`chunks` deletes any row with the same `id` and inserts a fresh row with a
fresh rowid (modelled by a monotone rowid counter).  Statement-level
failures inside `saveChunks` are modelled by an oracle giving the fate of
the `k`-th INSERT of the call; `BEGIN`/`COMMIT`/`ROLLBACK` themselves are
assumed to succeed. -/

/-- A row of the `chunks` table. -/
structure ChunkRow where
  rowid : Int
  id : Str
  content : Str
  metadataJson : Str
  embedding : Option (List Nat) := none
deriving DecidableEq, Repr

/-- A row of the `chunks_fts` full-text index. -/
structure FtsRow where
  rowid : Int
  content : Str
  metadataJson : Str
deriving DecidableEq, Repr

/-- The durable database state. -/
structure DbState where
  rows : List ChunkRow := []
  fts : List FtsRow := []
  nextRowid : Int := 1
deriving DecidableEq, Repr

/-- Base-2 logarithm by structural recursion on a fuel bound. -/
def natLog2Aux : Nat → Nat → Nat
  | 0, _ => 0
  | fuel + 1, n => if 2 ≤ n then natLog2Aux fuel (n / 2) + 1 else 0

def natLog2 (n : Nat) : Nat := natLog2Aux n n

/-- IEEE-754 binary32 little-endian encoding of an integer value (exact for
`|x| < 2²⁴`, which covers every vector in this development):
`Buffer.from(new Float32Array([x]).buffer)` for one component. -/
def f32leBytes (x : Int) : List Nat :=
  if x = 0 then [0, 0, 0, 0]
  else
    let n := x.natAbs
    let e := natLog2 n
    let mant := n * 2 ^ 23 / 2 ^ e - 2 ^ 23
    let sign : Nat := if x < 0 then 1 else 0
    let word := sign * 2 ^ 31 + (e + 127) * 2 ^ 23 + mant
    [word % 256, word / 2 ^ 8 % 256, word / 2 ^ 16 % 256, word / 2 ^ 24 % 256]

/-- Model of `Buffer.from(new Float32Array(v).buffer)`. -/
def encodeEmbedding (v : List Int) : List Nat :=
  v.flatMap f32leBytes

/-- Model of `INSERT OR REPLACE INTO chunks (id, content, metadata, embedding)`
(db.ts, lines 59–70): any existing row with this `id` is deleted; the new
row gets a fresh rowid. -/
def upsertChunkRow (st : DbState) (c : Chunk) : DbState :=
  let newRow : ChunkRow :=
    { rowid := st.nextRowid, id := c.id, content := c.content,
      metadataJson := serializeMetadata c.metadata,
      embedding := c.embedding.map encodeEmbedding }
  { st with rows := st.rows.filter (fun r => !(r.id = c.id)) ++ [newRow],
            nextRowid := st.nextRowid + 1 }

/-- Model of `INSERT OR REPLACE INTO chunks_fts (rowid, content, metadata)` with
`rowid = (SELECT rowid FROM chunks WHERE id = ?)` (db.ts, lines 73–79).
The subquery runs after the chunk insert, so the row is present; the
`getD 0` arm models the unreachable NULL case. -/
def upsertFtsRow (st : DbState) (c : Chunk) : DbState :=
  let rid : Int :=
    match st.rows.find? (fun r => r.id = c.id) with
    | some r => r.rowid
    | none => 0
  let newFts : FtsRow :=
    { rowid := rid, content := c.content, metadataJson := serializeMetadata c.metadata }
  { st with fts := st.fts.filter (fun f => !(f.rowid == rid)) ++ [newFts] }

/-- The effect of one loop iteration of `saveChunks` on the transaction. -/
def applyChunk (st : DbState) (c : Chunk) : DbState :=
  upsertFtsRow (upsertChunkRow st c) c

/-- The effect of the whole committed batch. -/
def applyChunks (st : DbState) (cs : List Chunk) : DbState :=
  cs.foldl applyChunk st

def msgSaveFailed : Str := ("Failed to save chunks").data

/-- The statement loop of `saveChunks` inside the open transaction:
`fail k` tells whether the `k`-th INSERT of this call throws. -/
def saveChunksGo (fail : Nat → Bool) : Nat → DbState → List Chunk → Except JsError DbState
  | _, txn, [] => .ok txn
  | idx, txn, c :: rest =>
    if fail idx then .error (.database msgSaveFailed)
    else
      let txn1 := upsertChunkRow txn c
      if fail (idx + 1) then .error (.database msgSaveFailed)
      else saveChunksGo fail (idx + 2) (upsertFtsRow txn1 c) rest

/-- Model of `VectorStore.saveChunks` (db.ts, lines 51–89): `BEGIN TRANSACTION`, the
statement loop, then `COMMIT`; on any statement failure, `ROLLBACK` (the
durable state reverts to the pre-call state) and a `DatabaseError` is
re-raised. -/
def saveChunks (fail : Nat → Bool) (st : DbState) (chunks : List Chunk) :
    DbState × Except JsError Unit :=
  match saveChunksGo fail 0 st chunks with
  | .ok txn => (txn, .ok ())
  | .error e => (st, .error e)

/-! ### `VectorStore.search` (db.ts, lines 94–135)

The SQL computes
`(embedding * ?) / (SQRT(embedding * embedding) * SQRT(? * ?))` where both
operands are BLOBs (the float32 byte buffers).  SQLite arithmetic coerces a
BLOB to a number by reading its bytes as text and parsing a numeric prefix
(0 if none).  `SQRT(e*e) * SQRT(q*q)` is exactly `|e| * |q|` for the
integers such parsing produces.  Division by zero yields SQL NULL, and
`WHERE similarity > 0` is not satisfied by NULL. -/

/-- Byte-wise decimal-prefix parser (SQLite text-to-numeric coercion of a
BLOB: optional leading whitespace, optional sign, then a digit prefix; the
value is 0 when no digits follow.  Fractional parts never arise in this
development). -/
def parseDigits : List Nat → Nat → Nat
  | b :: rest, acc => if 48 ≤ b ∧ b ≤ 57 then parseDigits rest (acc * 10 + (b - 48)) else acc
  | [], acc => acc

def blobToNumeric (bytes : List Nat) : Int :=
  let trimmed := bytes.dropWhile (fun b => b = 32 || b = 9 || b = 10 || b = 13 || b = 11 || b = 12)
  match trimmed with
  | 45 :: rest => -(parseDigits rest 0 : Int)
  | 43 :: rest => (parseDigits rest 0 : Int)
  | _ => (parseDigits trimmed 0 : Int)

/-- The `similarity` column for one row: NULL (`none`) when the divisor is
zero, as in SQLite. -/
def sqliteSimilarity (ebytes qbytes : List Nat) : Option Rat :=
  let e : Int := blobToNumeric ebytes
  let q : Int := blobToNumeric qbytes
  let denom : Int := (e.natAbs : Int) * (q.natAbs : Int)
  if denom = 0 then none else some ((e * q : Int) / (denom : Rat))

/-- Model of `ORDER BY similarity DESC` places non-NULL values in descending order
with NULLs last (SQLite default); ties keep an unspecified order, modelled
as insertion order. -/
def simGE (a b : Option Rat) : Bool :=
  match a, b with
  | none, none => true
  | none, some _ => false
  | some _, none => true
  | some s, some t => t ≤ s

def insertDescBy (key : α → Option Rat) (x : α) : List α → List α
  | [] => [x]
  | y :: ys => if simGE (key y) (key x) then y :: insertDescBy key x ys else x :: y :: ys

def sortDescBy (key : α → Option Rat) : List α → List α
  | [] => []
  | x :: xs => insertDescBy key x (sortDescBy key xs)

/-- Model of `VectorStore.search` (db.ts, lines 94–135): filter rows with a non-NULL
embedding, compute the similarity column, order descending, `LIMIT`, then
keep only rows whose similarity is strictly positive. -/
def searchVec (st : DbState) (queryVector : List Int) (limit : Nat) :
    List (ChunkRow × Option Rat) :=
  let qbytes := encodeEmbedding queryVector
  let sims := (st.rows.filter (fun r => r.embedding.isSome)).map
    (fun r => (r, match r.embedding with
                  | some b => sqliteSimilarity b qbytes
                  | none => none))
  let limited := (sortDescBy (fun p => p.2) sims).take limit
  limited.filter (fun p => match p.2 with
                           | some s => decide (0 < s)
                           | none => false)

/-! ## `FileProcessor` (processor.ts)

External effects are collected in an `Env`: the filesystem (`statSync` /
`readFileSync`; `none` models a thrown fs error such as ENOENT), the
embedding provider (per chunk text and attempt number), the
typescript-estree parser, the statement-failure oracle of the database
client, and the clock.  `retryDelay`, `concurrency` and the result's
`processingTime` are wall-clock-only and have no observable effect on the
modelled results; they are omitted. -/

structure FsFile where
  size : Int
  content : Str
deriving DecidableEq, Repr

structure Env where
  fs : Str → Option FsFile
  provider : Str → Nat → Except Unit (List Int)
  parser : Str → Except Unit Ast
  dbFail : Nat → Bool
  now : Str

/-- Model of `ProcessorConfig` (processor.ts, lines 13–39), with the embedding
sub-config flattened to its observable fields. -/
structure ProcessorConfig where
  maxTokens : Int := 1000
  overlap : Int := 200
  maxFileSize : Int := 10 * 1024 * 1024
  batchSize : Nat := 100
  maxRetries : Nat := 3
deriving DecidableEq, Repr

/-- Model of `ProcessResult` (processor.ts, lines 44–72) without the wall-clock
`processingTime`. -/
structure ProcessResult where
  processedFiles : Int := 0
  totalChunks : Int := 0
  succeeded : List Str := []
  failed : List (Str × Str) := []
deriving DecidableEq, Repr

/-- Model of `path.extname`: the extension (with dot) of the last path segment;
empty for dotfiles and extensionless names. -/
def extname (path : Str) : Str :=
  let base := (path.splitOn '/').getLastD []
  match base.reverse.findIdx? (fun c => c = '.') with
  | none => []
  | some j => if j = base.length - 1 then [] else '.' :: (base.reverse.take j).reverse

/-- Model of `FileProcessor.detectFileType` (processor.ts, lines 223–242). -/
def detectFileType (path : Str) : FileType :=
  let ext := (extname path).map Char.toLower
  if ext = (".ts").data ∨ ext = (".tsx").data then .typescript
  else if ext = (".js").data ∨ ext = (".jsx").data then .javascript
  else if ext = (".md").data then .markdown
  else if ext = (".json").data then .json
  else if ext = (".yaml").data ∨ ext = (".yml").data then .yaml
  else .text

/-- Model of `String.prototype.trim`. -/
def trimJs (s : Str) : Str :=
  ((s.dropWhile isJsWhitespace).reverse.dropWhile isJsWhitespace).reverse

def msgEmptyFile : Str := ("File is empty").data

def msgUnknown : Str := ("Unknown error occurred").data

def msgChunkFailed : Str := ("Failed to chunk code").data

/-- The string ``  `File size exceeds limit: ${stats.size} > ${this.config.maxFileSize}` ``. -/
def msgTooLarge (size maxFileSize : Int) : Str :=
  ("File size exceeds limit: ").data ++ intToStr size ++ (" > ").data ++ intToStr maxFileSize

/-- Model of `ChunkerFactory.create(...).chunk(content)` (code.ts, lines 199–228
together with `CodeChunker.chunk`'s try/catch): code-like types parse the
text and run the AST chunker with
`{minNodeSize: 3, includeImports: true, includeComments: true}` (a parse
error becomes a `ChunkingError`); markdown/text use the paragraph chunker;
JSON/YAML and anything else use the line chunker. -/
def factoryChunk (env : Env) (filePath : Str) (fileType : FileType)
    (config : ChunkerConfig) (text : Str) : Except JsError (List ChunkResult) :=
  let ctx : ChunkerCtx := ⟨filePath, fileType, env.now⟩
  match fileType with
  | .typescript | .javascript =>
    match env.parser text with
    | .ok ast =>
      .ok (codeChunk ctx
        { toChunkerConfig := config, minNodeSize := some 3,
          includeImports := some true, includeComments := some true } text ast)
    | .error _ => .error (.chunking msgChunkFailed)
  | .markdown | .text => .ok (paragraphChunk ctx config text)
  | .json | .yaml => .ok (lineChunk ctx config text)

/-- The failure message recorded by `processFile`'s catch block
(processor.ts, lines 167–182): the message of a `ChunkingError`,
`EmbeddingError` or `ProcessorError`; every other error (including
`DatabaseError`) becomes `Unknown error occurred`. -/
def caughtMessage : JsError → Str
  | .chunking m => m
  | .embedding m => m
  | .processor m => m
  | .database _ => msgUnknown
  | .generic _ => msgUnknown

/-- The `try` block of `FileProcessor.processFile` (processor.ts, lines
127–166): size and emptiness checks, file-type detection, chunking,
embedding, persisting — either the number of chunks produced together with
the database state after the save, or the first error thrown. -/
def processFileAttempt (env : Env) (cfg : ProcessorConfig) (store : DbState) (path : Str) :
    Except JsError (Int × DbState) :=
  match env.fs path with
  | none => .error (.generic msgUnknown)
  | some file =>
    if file.size > cfg.maxFileSize then
      .error (.processor (msgTooLarge file.size cfg.maxFileSize))
    else if (trimJs file.content).length = 0 then
      .error (.processor msgEmptyFile)
    else
      let fileType := detectFileType path
      let chunkerConfig : ChunkerConfig :=
        { maxTokens := some cfg.maxTokens, overlap := some cfg.overlap }
      match factoryChunk env path fileType chunkerConfig file.content with
      | .error e => .error e
      | .ok chunks =>
        match embedChunks cfg.maxRetries cfg.batchSize env.provider chunks with
        | .error e => .error e
        | .ok embedded =>
          match saveChunks env.dbFail store embedded with
          | (st2, .ok _) => .ok ((chunks.length : Int), st2)
          | (_, .error e) => .error e

/-- Model of `FileProcessor.processFile` (processor.ts, lines 117–188): run the try
block; every thrown error is converted into a per-file failure entry and
the function itself always returns.  The result pairs the `ProcessResult`
with the database state after the call. -/
def processFile (env : Env) (cfg : ProcessorConfig) (store : DbState) (path : Str) :
    ProcessResult × DbState :=
  match processFileAttempt env cfg store path with
  | .ok (nChunks, st2) =>
    ({ processedFiles := 1, totalChunks := nChunks, succeeded := [path], failed := [] }, st2)
  | .error e =>
    ({ processedFiles := 0, totalChunks := 0, succeeded := [],
       failed := [(path, caughtMessage e)] }, store)

/-- The aggregation step of `processFiles` (processor.ts, lines 209–214):
run one file against the current store and merge its `ProcessResult` into
the accumulator. -/
def processFilesStep (env : Env) (cfg : ProcessorConfig)
    (acc : ProcessResult × DbState) (path : Str) : ProcessResult × DbState :=
  let (r, st2) := processFile env cfg acc.2 path
  ({ processedFiles := acc.1.processedFiles + r.processedFiles,
     totalChunks := acc.1.totalChunks + r.totalChunks,
     succeeded := acc.1.succeeded ++ r.succeeded,
     failed := acc.1.failed ++ r.failed }, st2)

/-- Model of `FileProcessor.processFiles` (processor.ts, lines 193–218):
`Promise.all` over the paths, then the per-file results merged in path
order.  Store writes from concurrent `processFile` runs are serialized by
the database (spec §5); the model threads the store left to right. -/
def processFiles (env : Env) (cfg : ProcessorConfig) (store : DbState) (paths : List Str) :
    ProcessResult × DbState :=
  paths.foldl (processFilesStep env cfg) ({}, store)

/-! ## Claim C3: retry semantics of the embedding driver -/

/-- The C3 attempt oracle: the first call fails, every later call succeeds. -/
def attemptsC3 : Nat → Except Unit (List Int) :=
  fun k => if k = 0 then .error () else .ok [1]

/-- A small chunk for the C3 run. -/
def chunkC3 : ChunkResult := ⟨("x").data, createMetadata exampleCtx 0 0 2 none⟩

/-- The value inside a successful provider answer. -/
def okValue : Except Unit (List Int) → List Int
  | .ok v => v
  | .error _ => []

/-- The `Chunk` produced for a `ChunkResult` whose first embedding attempt
succeeds. -/
def embeddedChunk (provider : Str → Nat → Except Unit (List Int)) (c : ChunkResult) : Chunk :=
  { id := generateChunkId c, content := c.content, metadata := c.metadata,
    embedding := some (okValue (provider c.content 0)) }

/-! ## Claims C4 and C8: transactional `saveChunks`, deterministic ids -/

/-- Whether the statement plan of a `saveChunks` call with `n` chunks,
starting at statement index `idx`, runs with no failure. -/
def savePlanOk (fail : Nat → Bool) : Nat → Nat → Bool
  | _, 0 => true
  | idx, n + 1 => !fail idx && !fail (idx + 1) && savePlanOk fail (idx + 2) n

/-- A concrete chunk for the C4/C8 witnesses. -/
def witnessChunk : Chunk :=
  { id := ("a").data, content := ("a").data,
    metadata := createMetadata exampleCtx 0 0 1 none, embedding := some [1] }

/-- A pre-existing row used by the C8 witness (same id as `witnessChunk`). -/
def preexistingRow : ChunkRow :=
  { rowid := 5, id := ("a").data, content := ("old").data, metadataJson := ("m").data }

/-! ## Claim C5: the cosine-similarity search -/

/-- A stored chunk of the C5 scenario. -/
def mkChunkC5 (id : Str) (emb : List Int) : Chunk :=
  { id := id, content := id, metadata := createMetadata exampleCtx 0 0 1 none,
    embedding := some emb }

/-- The store of the C5 scenario: three chunks with embeddings `[1,0]`,
`[0,1]`, `[1,1]`, saved through `saveChunks`. -/
def storeC5 : DbState :=
  applyChunks {} [mkChunkC5 ("c1").data [1, 0], mkChunkC5 ("c2").data [0, 1],
                  mkChunkC5 ("c3").data [1, 1]]

/-! ## Claim C10: the success/failure partition of `processFiles` -/

/-- The store-independent part of a try-block outcome: the chunk count on
success, the error otherwise. -/
def attemptOutcome : Except JsError (Int × DbState) → Except JsError Int
  | .ok (n, _) => .ok n
  | .error e => .error e

/-- The per-file outcome, taken against a canonical (empty) store. -/
def fileOutcome (env : Env) (cfg : ProcessorConfig) (path : Str) : ProcessResult :=
  (processFile env cfg {} path).1

/-- An environment in which every file read fails. -/
def envNone : Env :=
  { fs := fun _ => none, provider := fun _ _ => .error (),
    parser := fun _ => .error (), dbFail := fun _ => false, now := [] }

/-- Whether the store holds a row with the given chunk id. -/
def rowIdPresent (st : DbState) (id : Str) : Bool :=
  st.rows.any (fun r => r.id == id)

/-- The concrete environment of the C7 witness: one small markdown file and
one file over the 10 MB default limit. -/
def envC7 : Env :=
  { fs := fun path =>
      if path = ("good.md").data then some ⟨5, ("hello").data⟩
      else if path = ("big.md").data then some ⟨10485761, ("x").data⟩
      else none,
    provider := fun _ _ => .ok [1],
    parser := fun _ => .error (),
    dbFail := fun _ => false,
    now := [] }

/-! ## Theorems -/

/-- C1 (counterexample): the claim asserts `estimate("a b") == 5`, but the
code's estimator returns `4` on `"a b"` (two alphanumeric characters count 1
each, the single space counts 2).  The claimed value 5 also contradicts the
claim's own general formula. -/
theorem estimate_a_space_b_is_four_not_five :
    estimateTokenCount ("a b").data = 4 ∧ ¬ estimateTokenCount ("a b").data = 5 := by
  constructor
  · decide
  · decide

/-- C1 (amended): for every text, the token estimator returns
`alphanumericCount*1 + (length - alphanumericCount)*2` where
`alphanumericCount` counts the characters matching `[a-zA-Z0-9]`;
in particular `estimate("ab12") = 4`, `estimate("日本語") = 6` and
`estimate("a b") = 4`. -/
theorem tokenEstimator_matches_spec_formula :
    (∀ text : Str, estimateTokenCount text = specTokenEstimate text) ∧
    estimateTokenCount ("ab12").data = 4 ∧
    estimateTokenCount ("日本語").data = 6 ∧
    estimateTokenCount ("a b").data = 4 := by
  refine ⟨?_, by decide, by decide, by decide⟩
  intro text
  simp [estimateTokenCount, specTokenEstimate, List.countP_eq_length_filter]

/-- C6 (counterexample): the claim says that after a flush the next chunk is
seeded with the last `overlap` lines of the flushed chunk.  With
`maxTokens = 10`, `overlap = 0` and three 4-token lines, the flushed chunk is
`"aaaa\nbbbb"` and the seed should be empty, making the second chunk
`"cccc"`.  But `currentChunk.slice(-0)` is `slice(0)`, which returns the
whole array, so the second chunk is `"aaaa\nbbbb\ncccc"`. -/
theorem lineChunker_overlap_zero_reseeds_whole_chunk :
    ((lineChunk exampleCtx { maxTokens := some 10, overlap := some 0 }
        ("aaaa\nbbbb\ncccc").data).map (fun c => c.content)
      = [("aaaa\nbbbb").data, ("aaaa\nbbbb\ncccc").data]) ∧
    ¬ ((lineChunk exampleCtx { maxTokens := some 10, overlap := some 0 }
        ("aaaa\nbbbb\ncccc").data).map (fun c => c.content)
      = [("aaaa\nbbbb").data, ("cccc").data]) := by
  constructor
  · decide
  · decide

/-- C6 (amended): the line chunker flushes exactly when the token estimate of
the next line would make the running total strictly exceed `maxTokens` (with
`maxTokens = 10` and 4-token lines the flush happens when the 3rd line would
push the total to 12 > 10; with `maxTokens = 12` the total merely meets the
budget and no flush occurs); after a flush the next chunk is seeded with the
last `min(overlap, flushed-line-count)` lines of the flushed chunk when
`overlap ≥ 1`, while `overlap = 0` re-seeds the entire flushed chunk
(JavaScript `slice(-0)`). -/
theorem lineChunker_boundary_and_overlap_seeding :
    (lineChunk exampleCtx { maxTokens := some 10, overlap := some 1 }
        ("aaaa\nbbbb\ncccc").data
      = [⟨("aaaa\nbbbb").data, createMetadata exampleCtx 0 1 8 none⟩,
         ⟨("bbbb\ncccc").data, createMetadata exampleCtx 1 2 8 none⟩]) ∧
    (lineChunk exampleCtx { maxTokens := some 12, overlap := some 1 }
        ("aaaa\nbbbb\ncccc").data
      = [⟨("aaaa\nbbbb\ncccc").data, createMetadata exampleCtx 0 2 12 none⟩]) ∧
    (lineChunk exampleCtx { maxTokens := some 10, overlap := some 0 }
        ("aaaa\nbbbb\ncccc").data
      = [⟨("aaaa\nbbbb").data, createMetadata exampleCtx 0 1 8 none⟩,
         ⟨("aaaa\nbbbb\ncccc").data, createMetadata exampleCtx 2 2 12 none⟩]) := by
  refine ⟨by decide, by decide, by decide⟩

/-- C9 (counterexample): the invariant `startPosition ≤ endPosition` fails
for a configuration with a negative `overlap`: with `overlap = -2`,
`Math.min(-2, 2) = -2`, so the reseed is `slice(2)` (dropping the kept
lines) and `startLine` becomes `i - (-2) = 4`; the trailing chunk is then
emitted with `startPosition = 4 > 2 = endPosition`. -/
theorem negative_overlap_breaks_position_invariant :
    ((lineChunk exampleCtx { maxTokens := some 10, overlap := some (-2) }
        ("aaaa\nbbbb\ncccc").data).all chunkInvariant) = false := by
  decide

/-- C2 (counterexample): on the claimed input with `minNodeSize = 1` and
`includeImports = true` the AST chunker emits 2 chunks, not the claimed 3:
`export function f(){...}` appears in `Program.body` only as an
`ExportNamedDeclaration`, and the declaration pass tests `node.type` of the
top-level nodes only, so no function-declaration chunk is produced. -/
theorem astChunker_two_chunks_not_three :
    (codeChunk ctxC2 cfgC2 textC2 astC2).length = 2 ∧
    ¬ (codeChunk ctxC2 cfgC2 textC2 astC2).length = 3 := by
  constructor
  · decide
  · decide

/-- C2 (amended): on that input the AST chunker produces exactly two chunks,
in this order: one import chunk (`nodeType = 'imports'`, content
`import x from 'y';`) and one export chunk (`nodeType = 'export'`, content
`export function f(){ return 1; }`); no separate function-declaration chunk
is emitted, because the function declaration is nested inside the export
node rather than being an element of `ast.body`. -/
theorem astChunker_import_and_export_chunks :
    ((codeChunk ctxC2 cfgC2 textC2 astC2).map (fun c => c.content)
      = [("import x from 'y';").data, ("export function f(){ return 1; }").data]) ∧
    ((codeChunk ctxC2 cfgC2 textC2 astC2).map
        (fun c => c.metadata.additionalMetadata.map (fun m => m.nodeType))
      = [some ("imports").data, some ("export").data]) ∧
    (codeChunk ctxC2 cfgC2 textC2 astC2).all
      (fun c => !(c.metadata.additionalMetadata.map (fun m => m.nodeType)
          = some (nodeTypeName .functionDeclaration))) = true := by
  refine ⟨by decide, by decide, by decide⟩

/-! ## Claim C9: the `startPosition ≤ endPosition` / `tokenCount ≥ 0` invariant -/

theorem estimateTokenCount_nonneg (t : Str) : 0 ≤ estimateTokenCount t := by
  have hf : (t.filter isAlphanumeric).length ≤ t.length := List.length_filter_le _ _
  simp only [estimateTokenCount]
  omega

theorem foldl_tokens_nonneg (l : List Str) :
    ∀ init : Int, 0 ≤ init → 0 ≤ l.foldl (fun sum line => sum + estimateTokenCount line) init := by
  induction l with
  | nil => intro init h; simpa using h
  | cons x xs ih =>
    intro init h
    simp only [List.foldl_cons]
    exact ih _ (by have := estimateTokenCount_nonneg x; omega)

theorem sumTokens_nonneg (l : List Str) : 0 ≤ sumTokens l :=
  foldl_tokens_nonneg l 0 le_rfl

/-- Loop invariant of `LineChunker.chunk`: provided the configured overlap is
nonnegative, each emitted chunk satisfies the metadata invariant.  The
invariant carried through the loop: the token accumulator is nonnegative,
and `startLine` is at most `i - 1` when the accumulator is nonempty
(at most `i` when it is empty). -/
theorem lineChunkAux_inv (ctx : ChunkerCtx) (maxT ov : Int) (hov : 0 ≤ ov) (n : Nat) :
    ∀ (rem : List Str) (i : Nat) (cur : List Str) (curTokens startLine : Int),
      i + rem.length = n →
      0 ≤ curTokens →
      (0 < cur.length → startLine ≤ (i : Int) - 1) →
      (cur.length = 0 → startLine ≤ (i : Int)) →
      (lineChunkAux ctx maxT ov n rem i cur curTokens startLine).all chunkInvariant = true := by
  intro rem
  induction rem with
  | nil =>
    intro i cur curTokens startLine hn htok hne _hemp
    simp only [lineChunkAux]
    split
    · next h =>
      have h1 := hne h
      have h2 : i = n := by simpa using hn
      simp only [List.all_cons, List.all_nil, Bool.and_true, chunkInvariant,
        createMetadata, Bool.and_eq_true, decide_eq_true_eq]
      subst h2
      exact ⟨by omega, htok⟩
    · simp
  | cons line rest ih =>
    intro i cur curTokens startLine hn htok hne hemp
    simp only [lineChunkAux]
    split
    · next h =>
      simp only [List.all_cons, Bool.and_eq_true]
      constructor
      · simp only [chunkInvariant, createMetadata, Bool.and_eq_true, decide_eq_true_eq]
        exact ⟨by have := hne h.2; omega, htok⟩
      · apply ih (i + 1)
        · simp only [List.length_cons] at hn; omega
        · have := sumTokens_nonneg (jsSliceFrom cur (-(min ov (cur.length : Int))))
          have := estimateTokenCount_nonneg line
          omega
        · intro _
          have hmin : 0 ≤ min ov (cur.length : Int) := le_min hov (by positivity)
          push_cast
          omega
        · intro habs; simp at habs
    · next h =>
      apply ih (i + 1)
      · simp only [List.length_cons] at hn; omega
      · have := estimateTokenCount_nonneg line
        omega
      · intro _
        rcases Nat.eq_zero_or_pos cur.length with hc | hc
        · have := hemp hc; push_cast; omega
        · have := hne hc; push_cast; omega
      · intro habs; simp at habs

/-- Loop invariant of `ParagraphChunker.chunk`: every emitted chunk satisfies
the metadata invariant, for every paragraph list and configuration. -/
theorem paragraphChunkAux_inv (ctx : ChunkerCtx) (maxT : Int) :
    ∀ (rem : List Str) (cur : List Str) (curTokens startPos curPos : Int),
      0 ≤ curTokens →
      (cur.length = 0 → startPos ≤ curPos) →
      (0 < cur.length → startPos ≤ curPos - 2) →
      (paragraphChunkAux ctx maxT rem cur curTokens startPos curPos).all chunkInvariant = true := by
  intro rem
  induction rem with
  | nil =>
    intro cur curTokens startPos curPos htok _hemp hne
    simp only [paragraphChunkAux]
    split
    · next h =>
      simp only [List.all_cons, List.all_nil, Bool.and_true, chunkInvariant,
        createMetadata, Bool.and_eq_true, decide_eq_true_eq]
      exact ⟨by have := hne h; omega, htok⟩
    · simp
  | cons p rest ih =>
    intro cur curTokens startPos curPos htok hemp hne
    simp only [paragraphChunkAux]
    have hp : (0 : Int) ≤ (p.length : Int) := by positivity
    split
    · next h =>
      simp only [List.all_cons, Bool.and_eq_true]
      refine ⟨?_, ?_⟩
      · simp only [chunkInvariant, createMetadata, Bool.and_eq_true, decide_eq_true_eq]
        exact ⟨by have := hne h.2; omega, htok⟩
      · apply ih
        · exact estimateTokenCount_nonneg p
        · intro habs; simp at habs
        · intro _; omega
    · next h =>
      apply ih
      · have := estimateTokenCount_nonneg p; omega
      · intro habs; simp at habs
      · intro _
        rcases Nat.eq_zero_or_pos cur.length with hc | hc
        · have := hemp hc; omega
        · have := hne hc; omega

theorem pairwise_locEnd_head_getLast :
    ∀ (l : List AstNode) (h : l ≠ []),
      l.Pairwise (fun a b => a.locEndLine ≤ b.locEndLine) →
      (l.head h).locEndLine ≤ (l.getLast h).locEndLine := by
  intro l h hp
  match l with
  | [a] => simp
  | a :: b :: rs =>
    have hmem : (a :: b :: rs).getLast h ∈ b :: rs := by
      rw [List.getLast_cons (by simp)]
      exact List.getLast_mem _
    have := (List.pairwise_cons.mp hp).1 _ hmem
    simpa using this

/-- Every chunk emitted by the AST chunker on a well-formed parse satisfies
the metadata invariant. -/
theorem codeChunk_inv (ctx : ChunkerCtx) (cfg : CodeChunkerConfig) (text : Str) (ast : Ast)
    (hwf : wellFormedAst ast = true) :
    (codeChunk ctx cfg text ast).all chunkInvariant = true := by
  have hwf1 : ∀ n ∈ ast.body, n.locStartLine ≤ n.locEndLine := by
    intro n hn
    have := (Bool.and_eq_true .. ▸ hwf).1
    rw [List.all_eq_true] at this
    simpa using this n hn
  have hwf2 : ast.body.Pairwise (fun a b => a.locEndLine ≤ b.locEndLine) := by
    have := (Bool.and_eq_true .. ▸ hwf).2
    simpa using this
  simp only [codeChunk, List.all_append, Bool.and_eq_true]
  refine ⟨⟨?_, ?_⟩, ?_⟩
  · -- import pass
    split
    · next =>
      split
      · simp
      · next imp0 rest heq =>
        have hsub : (imp0 :: rest).Sublist ast.body := heq ▸ List.filter_sublist ast.body
        have hmem0 : imp0 ∈ ast.body := hsub.mem (by simp)
        have hlast_mem : (imp0 :: rest).getLast (List.cons_ne_nil _ _) ∈ ast.body :=
          hsub.mem (List.getLast_mem _)
        have hpw : (imp0 :: rest).Pairwise (fun a b => a.locEndLine ≤ b.locEndLine) :=
          hwf2.sublist hsub
        have hhl := pairwise_locEnd_head_getLast (imp0 :: rest) (List.cons_ne_nil _ _) hpw
        simp only [List.head_cons] at hhl
        simp only [List.all_cons, List.all_nil, Bool.and_true, chunkInvariant,
          createMetadata, Bool.and_eq_true, decide_eq_true_eq]
        refine ⟨le_trans (hwf1 imp0 hmem0) hhl, estimateTokenCount_nonneg _⟩
    · simp
  · -- declaration pass
    rw [List.all_eq_true]
    intro c hc
    rw [List.mem_flatMap] at hc
    obtain ⟨node, hnode, hcnode⟩ := hc
    simp only [declChunksOf] at hcnode
    split at hcnode
    · split at hcnode
      · simp only [List.mem_singleton] at hcnode
        subst hcnode
        simp only [chunkInvariant, createMetadata, Bool.and_eq_true, decide_eq_true_eq]
        exact ⟨hwf1 node hnode, estimateTokenCount_nonneg _⟩
      · simp at hcnode
    · simp at hcnode
  · -- export pass
    rw [List.all_eq_true]
    intro c hc
    rw [List.mem_map] at hc
    obtain ⟨node, hnode, hcnode⟩ := hc
    have hmem : node ∈ ast.body := (List.mem_filter.mp hnode).1
    subst hcnode
    simp only [chunkInvariant, createMetadata, Bool.and_eq_true, decide_eq_true_eq]
    exact ⟨hwf1 node hmem, estimateTokenCount_nonneg _⟩

/-- C9 (amended): every chunk emitted by the line chunker (for every
configuration whose resolved overlap is nonnegative), by the paragraph
chunker (for every configuration), and by the AST chunker (for every
well-formed parse) satisfies `startPosition ≤ endPosition` and
`tokenCount ≥ 0`.  (The nonnegative-overlap proviso is forced by the
counterexample: a negative `overlap` makes the line chunker emit a chunk
with `startPosition > endPosition`.) -/
theorem chunk_position_invariant :
    (∀ ctx config text, 0 ≤ jsOrNum config.overlap 0 →
      (lineChunk ctx config text).all chunkInvariant = true) ∧
    (∀ ctx config text,
      (paragraphChunk ctx config text).all chunkInvariant = true) ∧
    (∀ ctx cfg text ast, wellFormedAst ast = true →
      (codeChunk ctx cfg text ast).all chunkInvariant = true) := by
  refine ⟨?_, ?_, ?_⟩
  · intro ctx config text hov
    exact lineChunkAux_inv ctx _ _ hov _ _ 0 [] 0 0 (by simp) le_rfl
      (by intro h; simp at h) (by intro _; norm_num)
  · intro ctx config text
    exact paragraphChunkAux_inv ctx _ _ [] 0 0 0 le_rfl (by intro _; omega)
      (by intro h; simp at h)
  · intro ctx cfg text ast hwf
    exact codeChunk_inv ctx cfg text ast hwf

/-- C9 witness: the amended invariant instantiated at concrete runs of all
three chunkers, each hypothesis discharged by computation. -/
theorem chunk_position_invariant_witness :
    ((0 : Int) ≤ jsOrNum (some 1) 0 ∧
      (lineChunk exampleCtx { maxTokens := some 10, overlap := some 1 }
        ("aaaa\nbbbb\ncccc").data).all chunkInvariant = true) ∧
    (paragraphChunk exampleCtx { maxTokens := some 10 }
      ("aaaa\n\nbbbb").data).all chunkInvariant = true ∧
    (wellFormedAst astW = true ∧
      (codeChunk exampleCtx { minNodeSize := some 1 }
        ("function g(){}").data astW).all chunkInvariant = true) :=
  ⟨⟨by decide, chunk_position_invariant.1 exampleCtx _ _ (by decide)⟩,
   chunk_position_invariant.2.1 exampleCtx _ _,
   ⟨by decide, chunk_position_invariant.2.2 exampleCtx _ _ astW (by decide)⟩⟩

/-- C3 (counterexample): with `maxRetries = 1` and an embedding call that
fails `maxRetries` times in a row (the first attempt) and then succeeds,
the claim demands an `EmbeddingError`; the code instead retries (the guard
is `retryCount < maxRetries`) and returns a normal result — the error is
only raised after `maxRetries + 1` consecutive failures. -/
theorem retry_succeeds_after_maxRetries_failures :
    (embedChunkWithRetry 1 attemptsC3 chunkC3 0).isOk = true ∧
    (∃ c, embedChunkWithRetry 1 attemptsC3 chunkC3 0 = .ok c) := by
  exact ⟨rfl, ⟨_, rfl⟩⟩

/-- One-step unfolding of `embedRetryGo`. -/
theorem embedRetryGo_step (mr : Nat) (att : Nat → Except Unit (List Int))
    (c : ChunkResult) (rc remaining : Nat) :
    embedRetryGo mr att c rc remaining =
      match att rc, remaining with
      | .ok embedding, _ =>
        .ok { id := generateChunkId c, content := c.content,
              metadata := c.metadata, embedding := some embedding }
      | .error _, r + 1 => embedRetryGo mr att c (rc + 1) r
      | .error _, 0 => .error (.embedding (retryFailMsg mr)) := by
  rw [embedRetryGo.eq_def]

theorem embedRetryGo_exhaust (mr : Nat) (att : Nat → Except Unit (List Int))
    (c : ChunkResult) :
    ∀ (remaining rc : Nat), (∀ k, rc ≤ k → k ≤ rc + remaining → (att k).isOk = false) →
      embedRetryGo mr att c rc remaining = .error (.embedding (retryFailMsg mr)) := by
  intro remaining
  induction remaining with
  | zero =>
    intro rc h
    rcases hatt : att rc with u | v
    · rw [embedRetryGo_step, hatt]
    · have := h rc le_rfl (by omega)
      rw [hatt] at this
      simp [Except.isOk, Except.toBool] at this
  | succ r ih =>
    intro rc h
    rcases hatt : att rc with u | v
    · rw [embedRetryGo_step, hatt]
      exact ih (rc + 1) (fun k h1 h2 => h k (by omega) (by omega))
    · have := h rc le_rfl (by omega)
      rw [hatt] at this
      simp [Except.isOk, Except.toBool] at this

theorem embedRetryGo_success (mr : Nat) (att : Nat → Except Unit (List Int))
    (c : ChunkResult) :
    ∀ (n remaining rc : Nat) (v : List Int), n ≤ remaining →
      (∀ k, rc ≤ k → k < rc + n → (att k).isOk = false) →
      att (rc + n) = .ok v →
      embedRetryGo mr att c rc remaining =
        .ok { id := generateChunkId c, content := c.content,
              metadata := c.metadata, embedding := some v } := by
  intro n
  induction n with
  | zero =>
    intro remaining rc v _ _ hok
    have hatt : att rc = .ok v := by simpa using hok
    rw [embedRetryGo_step, hatt]
  | succ n ih =>
    intro remaining rc v hle hfail hok
    rcases hatt : att rc with u | w
    · match remaining, hle with
      | r + 1, h2 =>
        rw [embedRetryGo_step, hatt]
        exact ih r (rc + 1) v (by omega) (fun k hk1 hk2 => hfail k (by omega) (by omega))
          (by rw [show rc + 1 + n = rc + (n + 1) by omega]; exact hok)
    · have := hfail rc le_rfl (by omega)
      rw [hatt] at this
      simp [Except.isOk, Except.toBool] at this

theorem embedRetryGo_error_shape (mr : Nat) (att : Nat → Except Unit (List Int))
    (c : ChunkResult) :
    ∀ (remaining rc : Nat) (e : JsError),
      embedRetryGo mr att c rc remaining = .error e →
      e = .embedding (retryFailMsg mr) := by
  intro remaining
  induction remaining with
  | zero =>
    intro rc e h
    rw [embedRetryGo_step] at h
    rcases hatt : att rc with u | v
    · rw [hatt] at h
      simp at h
      exact h.symm
    · rw [hatt] at h
      simp at h
  | succ r ih =>
    intro rc e h
    rw [embedRetryGo_step] at h
    rcases hatt : att rc with u | v
    · rw [hatt] at h
      exact ih (rc + 1) e h
    · rw [hatt] at h
      simp at h

theorem mapAllExcept_ok_forall {α β : Type} (f : α → Except JsError β) :
    ∀ (l : List α) (res : List β), mapAllExcept f l = .ok res →
      ∀ x ∈ l, (f x).isOk = true := by
  intro l
  induction l with
  | nil => intro res _ x hx; simp at hx
  | cons a as ih =>
    intro res h x hx
    rw [mapAllExcept] at h
    rcases hfa : f a with u | v
    · rw [hfa] at h; simp [Bind.bind, Except.bind] at h
    · rw [hfa] at h
      rcases hrest : mapAllExcept f as with u2 | ys
      · rw [hrest] at h; simp [Bind.bind, Except.bind] at h
      · rcases List.mem_cons.mp hx with hxa | hxas
        · subst hxa; rw [hfa]; rfl
        · exact ih ys hrest x hxas

theorem mapAllExcept_error_shape {α β : Type} (f : α → Except JsError β)
    (hf : ∀ x e, f x = .error e → ∃ m, e = .embedding m) :
    ∀ (l : List α) (e : JsError), mapAllExcept f l = .error e → ∃ m, e = .embedding m := by
  intro l
  induction l with
  | nil => intro e h; rw [mapAllExcept] at h; simp at h
  | cons a as ih =>
    intro e h
    rw [mapAllExcept] at h
    rcases hfa : f a with u | v
    · rw [hfa] at h
      simp [Bind.bind, Except.bind] at h
      exact h ▸ hf a u hfa
    · rw [hfa] at h
      rcases hrest : mapAllExcept f as with u2 | ys
      · rw [hrest] at h
        simp [Bind.bind, Except.bind] at h
        exact h ▸ ih u2 hrest
      · rw [hrest] at h
        simp [Bind.bind, Except.bind, Pure.pure, Except.pure] at h

theorem createBatches_flatten {α : Type} (k : Nat) :
    ∀ (l : List α), (createBatches l (k + 1)).flatten = l := by
  have main : ∀ (n : Nat) (l : List α), l.length ≤ n → (createBatches l (k + 1)).flatten = l := by
    intro n
    induction n with
    | zero =>
      intro l hl
      have : l = [] := List.length_eq_zero.mp (by omega)
      subst this
      simp [createBatches]
    | succ n ih =>
      intro l hl
      match l with
      | [] => simp [createBatches]
      | x :: rest =>
        rw [createBatches]
        rw [List.flatten_cons]
        rw [ih ((x :: rest).drop (k + 1)) (by simp only [List.length_drop, List.length_cons] at hl ⊢; omega)]
        exact List.take_append_drop _ _
  exact fun l => main l.length l le_rfl

theorem embedChunksFold_ok_forall (g : ChunkResult → Except JsError Chunk) :
    ∀ (batches : List (List ChunkResult)) (acc res : List Chunk),
      (batches.foldlM (fun results batch => do
          let batchResults ← mapAllExcept g batch
          pure (results ++ batchResults)) acc) = .ok res →
      ∀ b ∈ batches, ∀ x ∈ b, (g x).isOk = true := by
  intro batches
  induction batches with
  | nil => intro acc res _ b hb; simp at hb
  | cons b0 bs ih =>
    intro acc res h b hb
    rw [List.foldlM_cons] at h
    rcases hm : mapAllExcept g b0 with u | ys
    · rw [hm] at h
      simp [Bind.bind, Except.bind] at h
    · rw [hm] at h
      simp only [Bind.bind, Except.bind, Pure.pure, Except.pure] at h
      rcases List.mem_cons.mp hb with hb0 | hbs
      · subst hb0
        exact fun x hx => mapAllExcept_ok_forall g _ ys hm x hx
      · exact ih _ res h b hbs

theorem embedChunksFold_error_shape (g : ChunkResult → Except JsError Chunk)
    (hg : ∀ x e, g x = .error e → ∃ m, e = .embedding m) :
    ∀ (batches : List (List ChunkResult)) (acc : List Chunk) (e : JsError),
      (batches.foldlM (fun results batch => do
          let batchResults ← mapAllExcept g batch
          pure (results ++ batchResults)) acc) = .error e →
      ∃ m, e = .embedding m := by
  intro batches
  induction batches with
  | nil =>
    intro acc e h
    simp [List.foldlM, Pure.pure, Except.pure] at h
  | cons b0 bs ih =>
    intro acc e h
    rw [List.foldlM_cons] at h
    rcases hm : mapAllExcept g b0 with u | ys
    · rw [hm] at h
      simp [Bind.bind, Except.bind] at h
      exact h ▸ mapAllExcept_error_shape g hg b0 u hm
    · rw [hm] at h
      simp only [Bind.bind, Except.bind, Pure.pure, Except.pure] at h
      exact ih _ e h

theorem embedChunkWithRetry_first_ok (mr : Nat) (provider : Str → Nat → Except Unit (List Int))
    (c : ChunkResult) (h : (provider c.content 0).isOk = true) :
    embedChunkWithRetry mr (provider c.content) c 0 = .ok (embeddedChunk provider c) := by
  rcases hpv : provider c.content 0 with u | v
  · rw [hpv] at h
    simp [Except.isOk, Except.toBool] at h
  · rw [embedChunkWithRetry, embedRetryGo_step, hpv]
    simp [embeddedChunk, okValue, hpv]

theorem mapAllExcept_all_ok {α β : Type} (g : α → Except JsError β) (f2 : α → β)
    (hg : ∀ x, g x = .ok (f2 x)) :
    ∀ l, mapAllExcept g l = .ok (l.map f2) := by
  intro l
  induction l with
  | nil => rfl
  | cons a as ih =>
    rw [mapAllExcept, hg a, ih]
    rfl

theorem embedChunksFold_all_ok (g : ChunkResult → Except JsError Chunk) (f2 : ChunkResult → Chunk)
    (hg : ∀ x, g x = .ok (f2 x)) :
    ∀ (batches : List (List ChunkResult)) (acc : List Chunk),
      (batches.foldlM (fun results batch => do
          let batchResults ← mapAllExcept g batch
          pure (results ++ batchResults)) acc) = .ok (acc ++ batches.flatten.map f2) := by
  intro batches
  induction batches with
  | nil => intro acc; simp [List.foldlM, Pure.pure, Except.pure]
  | cons b0 bs ih =>
    intro acc
    have hstep : (do
        let batchResults ← mapAllExcept g b0
        pure (acc ++ batchResults) : Except JsError (List Chunk))
        = .ok (acc ++ b0.map f2) := by
      rw [mapAllExcept_all_ok g f2 hg b0]
      rfl
    rw [List.foldlM_cons, hstep]
    exact (ih (acc ++ b0.map f2)).trans (by simp)

theorem embedChunks_all_first_ok (mr bs : Nat) (provider : Str → Nat → Except Unit (List Int))
    (chunks : List ChunkResult) (hbs : 0 < bs) (hok : ∀ s, (provider s 0).isOk = true) :
    embedChunks mr bs provider chunks = .ok (chunks.map (embeddedChunk provider)) := by
  obtain ⟨k, rfl⟩ : ∃ k, bs = k + 1 := ⟨bs - 1, by omega⟩
  rw [embedChunks,
    embedChunksFold_all_ok _ (embeddedChunk provider)
      (fun c => embedChunkWithRetry_first_ok mr provider c (hok c.content))]
  rw [createBatches_flatten]
  rfl

/-- Model of `processFile` either succeeds with the result of its try block or
converts the thrown error into the single failure entry, leaving the store
untouched. -/
theorem processFile_cases (env : Env) (cfg : ProcessorConfig) (store : DbState) (path : Str) :
    (∃ n st2, processFileAttempt env cfg store path = .ok (n, st2) ∧
      processFile env cfg store path =
        ({ processedFiles := 1, totalChunks := n, succeeded := [path], failed := [] }, st2)) ∨
    (∃ e, processFileAttempt env cfg store path = .error e ∧
      processFile env cfg store path =
        ({ processedFiles := 0, totalChunks := 0, succeeded := [],
           failed := [(path, caughtMessage e)] }, store)) := by
  rcases hatt : processFileAttempt env cfg store path with e | ⟨n, st2⟩
  · right
    exact ⟨e, rfl, by rw [processFile, hatt]⟩
  · left
    exact ⟨n, st2, rfl, by rw [processFile, hatt]⟩

/-- C3 (amended): the retry loop raises `EmbeddingError` exactly when
`maxRetries + 1` consecutive attempts fail (the initial attempt plus
`maxRetries` retries); if some attempt `n ≤ maxRetries` succeeds after `n`
failures — in particular after `maxRetries - 1` failures — a normal chunk
is returned with no error; when a chunk of the batch exhausts all its
attempts, `embedChunks` fails with an `EmbeddingError`; and a file whose
processing fails leaves the vector store unchanged (the store is only
written after a successful embedding). -/
theorem embedRetry_error_after_exhausting_all_attempts :
    (∀ (mr : Nat) (att : Nat → Except Unit (List Int)) (c : ChunkResult),
      (∀ k, k ≤ mr → (att k).isOk = false) →
      embedChunkWithRetry mr att c 0 = .error (.embedding (retryFailMsg mr))) ∧
    (∀ (mr n : Nat) (att : Nat → Except Unit (List Int)) (c : ChunkResult) (v : List Int),
      n ≤ mr → (∀ k, k < n → (att k).isOk = false) → att n = .ok v →
      embedChunkWithRetry mr att c 0 =
        .ok { id := generateChunkId c, content := c.content,
              metadata := c.metadata, embedding := some v }) ∧
    (∀ (mr bs : Nat) (provider : Str → Nat → Except Unit (List Int))
        (chunks : List ChunkResult) (c : ChunkResult),
      0 < bs → c ∈ chunks → (∀ k, (provider c.content k).isOk = false) →
      ∃ m, embedChunks mr bs provider chunks = .error (.embedding m)) ∧
    (∀ (env : Env) (cfg : ProcessorConfig) (store : DbState) (path : Str),
      (processFile env cfg store path).1.succeeded = [] →
      (processFile env cfg store path).2 = store) := by
  refine ⟨?_, ?_, ?_, ?_⟩
  · intro mr att c h
    rw [embedChunkWithRetry]
    exact embedRetryGo_exhaust mr att c (mr - 0) 0 (fun k h1 h2 => h k (by omega))
  · intro mr n att c v hn hfail hok
    rw [embedChunkWithRetry]
    exact embedRetryGo_success mr att c n (mr - 0) 0 v (by omega)
      (fun k h1 h2 => hfail k (by omega)) (by simpa using hok)
  · intro mr bs provider chunks c hbs hc hfail
    obtain ⟨k, rfl⟩ : ∃ k, bs = k + 1 := ⟨bs - 1, by omega⟩
    have hcerr : embedChunkWithRetry mr (provider c.content) c 0
        = .error (.embedding (retryFailMsg mr)) := by
      rw [embedChunkWithRetry]
      exact embedRetryGo_exhaust mr (provider c.content) c (mr - 0) 0
        (fun j h1 h2 => hfail j)
    rcases h : embedChunks mr (k + 1) provider chunks with e | res
    · have := embedChunksFold_error_shape
        (fun x => embedChunkWithRetry mr (provider x.content) x 0)
        (fun x e2 hx => by
          have hx2 : embedRetryGo mr (provider x.content) x 0 (mr - 0) = .error e2 := hx
          exact ⟨retryFailMsg mr,
            embedRetryGo_error_shape mr (provider x.content) x (mr - 0) 0 e2 hx2⟩)
        (createBatches chunks (k + 1)) [] e (by rw [embedChunks] at h; exact h)
      obtain ⟨m, rfl⟩ := this
      exact ⟨m, rfl⟩
    · exfalso
      have hmem : c ∈ (createBatches chunks (k + 1)).flatten := by
        rw [createBatches_flatten]; exact hc
      obtain ⟨b, hb, hcb⟩ := List.mem_flatten.mp hmem
      have hok := embedChunksFold_ok_forall
        (fun x => embedChunkWithRetry mr (provider x.content) x 0)
        (createBatches chunks (k + 1)) [] res (by rw [embedChunks] at h; exact h)
        b hb c hcb
      have hok2 : (embedChunkWithRetry mr (provider c.content) c 0).isOk = true := hok
      rw [hcerr] at hok2
      simp [Except.isOk, Except.toBool] at hok2
  · intro env cfg store path h
    rcases processFile_cases env cfg store path with ⟨n, st2, _, hpf⟩ | ⟨e, _, hpf⟩
    · rw [hpf] at h
      simp at h
    · rw [hpf]

/-- C3 witness: the amended semantics instantiated at `maxRetries = 1` with
concrete oracles; each hypothesis is discharged by computation. -/
theorem embedRetry_error_semantics_witness :
    ((∀ k, k ≤ 1 → ((fun _ => (.error () : Except Unit (List Int))) k).isOk = false) ∧
      embedChunkWithRetry 1 (fun _ => .error ()) chunkC3 0
        = .error (.embedding (retryFailMsg 1))) ∧
    (embedChunkWithRetry 1 attemptsC3 chunkC3 0
      = .ok { id := generateChunkId chunkC3, content := chunkC3.content,
              metadata := chunkC3.metadata, embedding := some [1] }) ∧
    (∃ m, embedChunks 1 1 (fun _ _ => .error ()) [chunkC3] = .error (.embedding m)) ∧
    ((processFile { fs := fun _ => none, provider := fun _ _ => .error (),
                    parser := fun _ => .error (), dbFail := fun _ => false, now := [] }
        {} {} (("a.md").data)).2 = ({} : DbState)) :=
  ⟨⟨fun _ _ => rfl,
    embedRetry_error_after_exhausting_all_attempts.1 1 _ chunkC3 (fun _ _ => rfl)⟩,
   embedRetry_error_after_exhausting_all_attempts.2.1 1 1 attemptsC3 chunkC3 [1]
     (by decide) (fun k hk => by interval_cases k <;> rfl) (by rfl),
   embedRetry_error_after_exhausting_all_attempts.2.2.1 1 1 _ [chunkC3] chunkC3
     (by decide) (by simp) (fun _ => rfl),
   embedRetry_error_after_exhausting_all_attempts.2.2.2 _ {} {} (("a.md").data) (by rfl)⟩

theorem saveChunksGo_spec (fail : Nat → Bool) :
    ∀ (chunks : List Chunk) (idx : Nat) (st : DbState),
      saveChunksGo fail idx st chunks =
        if savePlanOk fail idx chunks.length then .ok (applyChunks st chunks)
        else .error (.database msgSaveFailed) := by
  intro chunks
  induction chunks with
  | nil => intro idx st; simp [saveChunksGo, savePlanOk, applyChunks]
  | cons c rest ih =>
    intro idx st
    simp only [saveChunksGo, savePlanOk, List.length_cons]
    by_cases h1 : fail idx
    · simp [h1]
    · by_cases h2 : fail (idx + 1)
      · simp [h1, h2]
      · simp only [h1, h2, Bool.not_false, Bool.true_and, if_false, if_true,
          Bool.false_eq_true, ite_false]
        rw [ih]
        simp [applyChunks, applyChunk]

theorem saveChunks_spec (fail : Nat → Bool) (st : DbState) (chunks : List Chunk) :
    saveChunks fail st chunks =
      if savePlanOk fail 0 chunks.length then (applyChunks st chunks, .ok ())
      else (st, .error (.database msgSaveFailed)) := by
  rw [saveChunks, saveChunksGo_spec]
  by_cases h : savePlanOk fail 0 chunks.length <;> simp [h]

/-- C4: `saveChunks` is all-or-nothing: when the call reports success the
durable state is the whole batch applied (each chunk's primary row and its
full-text row written by the same transaction); on any statement failure
the transaction is rolled back — the durable state is exactly the pre-call
state — and the error raised is the `DatabaseError` `Failed to save
chunks`.  No partial batch is ever committed. -/
theorem saveChunks_transactional :
    (∀ (fail : Nat → Bool) (st : DbState) (chunks : List Chunk),
      (saveChunks fail st chunks).1 =
        if (saveChunks fail st chunks).2.isOk = true then applyChunks st chunks else st) ∧
    (∀ (fail : Nat → Bool) (st : DbState) (chunks : List Chunk) (e : JsError),
      (saveChunks fail st chunks).2 = .error e → e = .database msgSaveFailed) := by
  constructor
  · intro fail st chunks
    rw [saveChunks_spec]
    by_cases h : savePlanOk fail 0 chunks.length <;>
      simp [h, Except.isOk, Except.toBool]
  · intro fail st chunks e h
    rw [saveChunks_spec] at h
    by_cases hp : savePlanOk fail 0 chunks.length
    · rw [if_pos hp] at h
      simp at h
    · rw [if_neg hp] at h
      simp at h
      exact h.symm

/-- C4 witness: a save in which the very first statement fails rolls back to
the empty store and reports the `DatabaseError`; the all-or-nothing equation
instantiated there. -/
theorem saveChunks_transactional_witness :
    ((saveChunks (fun _ => true) {} [witnessChunk]).2
      = .error (.database msgSaveFailed)) ∧
    ((saveChunks (fun _ => true) {} [witnessChunk]).1 =
      if (saveChunks (fun _ => true) {} [witnessChunk]).2.isOk = true
      then applyChunks {} [witnessChunk] else ({} : DbState)) ∧
    ((.database msgSaveFailed : JsError) = .database msgSaveFailed) :=
  ⟨by rfl, saveChunks_transactional.1 (fun _ => true) {} [witnessChunk],
   saveChunks_transactional.2 (fun _ => true) {} [witnessChunk]
     (.database msgSaveFailed) (by rfl)⟩

/-- C8: chunk-id generation is deterministic — the id is the SHA-256 hex
digest of the content concatenated (with `':'`) with the serialized
metadata, so equal `(content, metadata)` pairs hash to equal ids — and a
successful save of a chunk leaves exactly one row bearing its id in the
store (upsert, not a duplicate), in particular when a row with that id was
already stored. -/
theorem chunkId_deterministic_and_save_idempotent :
    (∀ c1 c2 : ChunkResult, c1.content = c2.content → c1.metadata = c2.metadata →
      generateChunkId c1 = generateChunkId c2) ∧
    (∀ c : ChunkResult,
      generateChunkId c = sha256Hex (c.content ++ ':' :: serializeMetadata c.metadata)) ∧
    (∀ (fail : Nat → Bool) (st : DbState) (c : Chunk),
      (saveChunks fail st [c]).2.isOk = true →
      ((saveChunks fail st [c]).1.rows.filter (fun r => r.id == c.id)).length = 1) := by
  refine ⟨?_, ?_, ?_⟩
  · intro c1 c2 h1 h2
    rw [generateChunkId, generateChunkId, h1, h2]
  · intro c
    rfl
  · intro fail st c h
    rw [saveChunks_spec] at h ⊢
    by_cases hp : savePlanOk fail 0 [witnessChunk].length
    · rw [if_pos (by simpa using hp)] at h ⊢
      simp only [applyChunks, List.foldl_cons, List.foldl_nil, applyChunk, upsertFtsRow,
        upsertChunkRow, List.filter_append]
      have hnil : ((st.rows.filter (fun r => !(decide (r.id = c.id)))).filter
          (fun r => r.id == c.id)) = [] := by
        rw [List.filter_eq_nil_iff]
        intro a ha
        have := (List.mem_filter.mp ha).2
        simp only [Bool.not_eq_true', decide_eq_false_iff_not] at this
        simp [this]
      rw [hnil]
      simp
    · rw [if_neg (by simpa using hp)] at h
      simp [Except.isOk, Except.toBool] at h

/-- C8 witness: determinism applied at a concrete pair, and a save of
`witnessChunk` into a store already holding a row with id `"a"` — the
result keeps exactly one row with that id. -/
theorem chunkId_deterministic_and_save_idempotent_witness :
    (chunkC3.content = chunkC3.content ∧ chunkC3.metadata = chunkC3.metadata ∧
      generateChunkId chunkC3 = generateChunkId chunkC3) ∧
    ((saveChunks (fun _ => false) { rows := [preexistingRow], nextRowid := 6 }
        [witnessChunk]).2.isOk = true) ∧
    (((saveChunks (fun _ => false) { rows := [preexistingRow], nextRowid := 6 }
        [witnessChunk]).1.rows.filter (fun r => r.id == witnessChunk.id)).length = 1) :=
  ⟨⟨rfl, rfl, chunkId_deterministic_and_save_idempotent.1 chunkC3 chunkC3 rfl rfl⟩,
   by rfl,
   chunkId_deterministic_and_save_idempotent.2.2 (fun _ => false)
     { rows := [preexistingRow], nextRowid := 6 } witnessChunk (by rfl)⟩

set_option maxRecDepth 4000 in
/-- C5 (code_bug): with the three claimed embeddings stored and query
`[1,0]`, `limit = 2`, the search returns nothing at all — not the two
positive-similarity chunks in descending cosine order.  The SQL multiplies
the raw embedding BLOBs: SQLite coerces each BLOB to the number 0 (its
bytes are not decimal text), the divisor `SQRT(e*e)*SQRT(q*q)` is 0,
division by zero yields NULL, and `WHERE similarity > 0` rejects NULL, so
every row is dropped — contradicting both the specification and the code's
own comment (「コサイン類似度を計算」). -/
theorem search_returns_empty_on_claim_store :
    storeC5.rows.length = 3 ∧
    storeC5.rows.all (fun r => r.embedding.isSome) = true ∧
    searchVec storeC5 [1, 0] 2 = [] ∧
    ¬ (searchVec storeC5 [1, 0] 2).length = 2 := by
  refine ⟨by decide, by decide, by decide, by decide⟩

/-- The outcome of `processFile` does not depend on the incoming database
state: the statement-failure oracle and everything before the save are
state-independent, and `saveChunks` fails or succeeds by the oracle alone. -/
theorem processFileAttempt_outcome_indep (env : Env) (cfg : ProcessorConfig) (path : Str)
    (store store2 : DbState) :
    attemptOutcome (processFileAttempt env cfg store path)
      = attemptOutcome (processFileAttempt env cfg store2 path) := by
  rw [processFileAttempt, processFileAttempt]
  cases hfs : env.fs path
  · rfl
  case some file =>
    dsimp only
    by_cases h1 : file.size > cfg.maxFileSize
    · rw [if_pos h1, if_pos h1]
    · rw [if_neg h1, if_neg h1]
      by_cases h2 : (trimJs file.content).length = 0
      · rw [if_pos h2, if_pos h2]
      · rw [if_neg h2, if_neg h2]
        rcases hfc : factoryChunk env path (detectFileType path)
          { maxTokens := some cfg.maxTokens, overlap := some cfg.overlap } file.content
          with e | chunks
        · rfl
        · dsimp only
          rcases hec : embedChunks cfg.maxRetries cfg.batchSize env.provider chunks
            with e | embedded
          · rfl
          · dsimp only
            rw [saveChunks_spec, saveChunks_spec]
            by_cases hs : savePlanOk env.dbFail 0 embedded.length
            · rw [if_pos hs, if_pos hs]
              rfl
            · rw [if_neg hs, if_neg hs]

theorem processFile_result_indep (env : Env) (cfg : ProcessorConfig) (path : Str)
    (store store2 : DbState) :
    (processFile env cfg store path).1 = (processFile env cfg store2 path).1 := by
  have hout := processFileAttempt_outcome_indep env cfg path store store2
  rcases processFile_cases env cfg store path with ⟨n, st2, ha, hpf⟩ | ⟨e, ha, hpf⟩ <;>
    rcases processFile_cases env cfg store2 path with ⟨n2, st22, ha2, hpf2⟩ | ⟨e2, ha2, hpf2⟩
  · rw [ha, ha2] at hout
    simp only [attemptOutcome, Except.ok.injEq] at hout
    rw [hpf, hpf2, hout]
  · rw [ha, ha2] at hout
    simp [attemptOutcome] at hout
  · rw [ha, ha2] at hout
    simp [attemptOutcome] at hout
  · rw [ha, ha2] at hout
    simp only [attemptOutcome, Except.error.injEq] at hout
    rw [hpf, hpf2, hout]

theorem fileOutcome_cases (env : Env) (cfg : ProcessorConfig) (path : Str) :
    ((fileOutcome env cfg path).succeeded = [path] ∧
      (fileOutcome env cfg path).failed = [] ∧
      (fileOutcome env cfg path).processedFiles = 1 ∧
      (fileOutcome env cfg path).totalChunks = (fileOutcome env cfg path).totalChunks) ∨
    ((fileOutcome env cfg path).succeeded = [] ∧
      (∃ m, (fileOutcome env cfg path).failed = [(path, m)]) ∧
      (fileOutcome env cfg path).processedFiles = 0) := by
  rcases processFile_cases env cfg {} path with ⟨n, st2, _, hpf⟩ | ⟨e, _, hpf⟩
  · left
    rw [fileOutcome, hpf]
    exact ⟨rfl, rfl, rfl, rfl⟩
  · right
    rw [fileOutcome, hpf]
    exact ⟨rfl, ⟨caughtMessage e, rfl⟩, rfl⟩

theorem processFilesStep_eq (env : Env) (cfg : ProcessorConfig)
    (acc : ProcessResult × DbState) (path : Str) :
    processFilesStep env cfg acc path =
      ({ processedFiles := acc.1.processedFiles + (fileOutcome env cfg path).processedFiles,
         totalChunks := acc.1.totalChunks + (fileOutcome env cfg path).totalChunks,
         succeeded := acc.1.succeeded ++ (fileOutcome env cfg path).succeeded,
         failed := acc.1.failed ++ (fileOutcome env cfg path).failed },
       (processFile env cfg acc.2 path).2) := by
  have hr : (processFile env cfg acc.2 path).1 = fileOutcome env cfg path :=
    processFile_result_indep env cfg path acc.2 {}
  rcases hpf : processFile env cfg acc.2 path with ⟨r, st2⟩
  have hreq : r = fileOutcome env cfg path := by
    rw [← hr, hpf]
  rw [processFilesStep, hpf, hreq]

/-- The fold invariant of `processFiles`: counts add up, `processedFiles`
tracks the succeeded count, and a path lands in the succeeded (resp.
failed) list exactly when its store-independent outcome succeeds (resp.
fails). -/
theorem processFilesFold_inv (env : Env) (cfg : ProcessorConfig) :
    ∀ (paths : List Str) (acc : ProcessResult × DbState),
      ((paths.foldl (processFilesStep env cfg) acc).1.succeeded.length
          + (paths.foldl (processFilesStep env cfg) acc).1.failed.length
        = acc.1.succeeded.length + acc.1.failed.length + paths.length) ∧
      ((paths.foldl (processFilesStep env cfg) acc).1.processedFiles
          - ((paths.foldl (processFilesStep env cfg) acc).1.succeeded.length : Int)
        = acc.1.processedFiles - (acc.1.succeeded.length : Int)) ∧
      (∀ p, p ∈ (paths.foldl (processFilesStep env cfg) acc).1.succeeded ↔
        (p ∈ acc.1.succeeded ∨ (p ∈ paths ∧ (fileOutcome env cfg p).succeeded = [p]))) ∧
      (∀ p, p ∈ ((paths.foldl (processFilesStep env cfg) acc).1.failed.map Prod.fst) ↔
        (p ∈ acc.1.failed.map Prod.fst ∨ (p ∈ paths ∧ (fileOutcome env cfg p).succeeded = []))) := by
  intro paths
  induction paths with
  | nil =>
    intro acc
    refine ⟨by simp, by simp, fun p => by simp, fun p => by simp⟩
  | cons path0 rest ih =>
    intro acc
    rw [List.foldl_cons, processFilesStep_eq]
    rcases fileOutcome_cases env cfg path0 with ⟨hs, hf, hp, -⟩ | ⟨hs, ⟨m, hf⟩, hp⟩
    · obtain ⟨ih1, ih2, ih3, ih4⟩ := ih
        ({ processedFiles := acc.1.processedFiles + (fileOutcome env cfg path0).processedFiles,
           totalChunks := acc.1.totalChunks + (fileOutcome env cfg path0).totalChunks,
           succeeded := acc.1.succeeded ++ (fileOutcome env cfg path0).succeeded,
           failed := acc.1.failed ++ (fileOutcome env cfg path0).failed },
         (processFile env cfg acc.2 path0).2)
      refine ⟨?_, ?_, ?_, ?_⟩
      · rw [ih1]
        simp [hs, hf]
        omega
      · rw [ih2]
        simp [hs, hf, hp]
      · intro p
        rw [ih3 p]
        simp only [hs, List.mem_append, List.mem_cons, List.not_mem_nil, or_false]
        constructor
        · rintro (⟨ha | rfl⟩ | ⟨hr, hout⟩)
          · exact Or.inl ha
          · exact Or.inr ⟨Or.inl rfl, hs⟩
          · exact Or.inr ⟨Or.inr hr, hout⟩
        · rintro (ha | ⟨rfl | hr, hout⟩)
          · exact Or.inl (Or.inl ha)
          · exact Or.inl (Or.inr rfl)
          · exact Or.inr ⟨hr, hout⟩
      · intro p
        rw [ih4 p]
        simp only [hf, List.append_nil, List.mem_cons]
        constructor
        · rintro (ha | ⟨hr, hout⟩)
          · exact Or.inl ha
          · exact Or.inr ⟨Or.inr hr, hout⟩
        · rintro (ha | ⟨rfl | hr, hout⟩)
          · exact Or.inl ha
          · rw [hs] at hout
            simp at hout
          · exact Or.inr ⟨hr, hout⟩
    · obtain ⟨ih1, ih2, ih3, ih4⟩ := ih
        ({ processedFiles := acc.1.processedFiles + (fileOutcome env cfg path0).processedFiles,
           totalChunks := acc.1.totalChunks + (fileOutcome env cfg path0).totalChunks,
           succeeded := acc.1.succeeded ++ (fileOutcome env cfg path0).succeeded,
           failed := acc.1.failed ++ (fileOutcome env cfg path0).failed },
         (processFile env cfg acc.2 path0).2)
      refine ⟨?_, ?_, ?_, ?_⟩
      · rw [ih1]
        simp [hs, hf]
        omega
      · rw [ih2]
        simp [hs, hf, hp]
      · intro p
        rw [ih3 p]
        simp only [hs, List.append_nil, List.mem_cons]
        constructor
        · rintro (ha | ⟨hr, hout⟩)
          · exact Or.inl ha
          · exact Or.inr ⟨Or.inr hr, hout⟩
        · rintro (ha | ⟨rfl | hr, hout⟩)
          · exact Or.inl ha
          · rw [hs] at hout
            simp at hout
          · exact Or.inr ⟨hr, hout⟩
      · intro p
        rw [ih4 p]
        simp only [hf, List.map_append, List.mem_append, List.mem_cons,
          List.map_cons, List.map_nil, List.not_mem_nil, or_false]
        constructor
        · rintro (⟨ha | rfl⟩ | ⟨hr, hout⟩)
          · exact Or.inl ha
          · exact Or.inr ⟨Or.inl rfl, hs⟩
          · exact Or.inr ⟨Or.inr hr, hout⟩
        · rintro (ha | ⟨rfl | hr, hout⟩)
          · exact Or.inl (Or.inl ha)
          · exact Or.inl (Or.inr rfl)
          · exact Or.inr ⟨hr, hout⟩

/-- C10: `processFile` always returns a result containing exactly one of a
success entry or a failure entry for its path, and `processFiles` always
returns (never throws) an aggregate in which
`succeeded.length + failed.length` equals the number of input paths,
`processedFiles` equals `succeeded.length`, and every input path appears in
exactly one of the succeeded list or the failed list. -/
theorem processFiles_partition :
    (∀ (env : Env) (cfg : ProcessorConfig) (store : DbState) (path : Str),
      ((processFile env cfg store path).1.succeeded = [path] ∧
        (processFile env cfg store path).1.failed = [] ∧
        (processFile env cfg store path).1.processedFiles = 1) ∨
      ((processFile env cfg store path).1.succeeded = [] ∧
        (∃ m, (processFile env cfg store path).1.failed = [(path, m)]) ∧
        (processFile env cfg store path).1.processedFiles = 0)) ∧
    (∀ (env : Env) (cfg : ProcessorConfig) (store : DbState) (paths : List Str),
      ((processFiles env cfg store paths).1.succeeded.length
          + (processFiles env cfg store paths).1.failed.length = paths.length) ∧
      ((processFiles env cfg store paths).1.processedFiles
          = ((processFiles env cfg store paths).1.succeeded.length : Int)) ∧
      (∀ p ∈ paths,
        (p ∈ (processFiles env cfg store paths).1.succeeded ∧
          ¬ p ∈ ((processFiles env cfg store paths).1.failed.map Prod.fst)) ∨
        (¬ p ∈ (processFiles env cfg store paths).1.succeeded ∧
          p ∈ ((processFiles env cfg store paths).1.failed.map Prod.fst)))) := by
  constructor
  · intro env cfg store path
    rcases processFile_cases env cfg store path with ⟨n, st2, _, hpf⟩ | ⟨e, _, hpf⟩
    · left
      rw [hpf]
      exact ⟨rfl, rfl, rfl⟩
    · right
      rw [hpf]
      exact ⟨rfl, ⟨caughtMessage e, rfl⟩, rfl⟩
  · intro env cfg store paths
    obtain ⟨h1, h2, h3, h4⟩ := processFilesFold_inv env cfg paths ({}, store)
    rw [processFiles]
    refine ⟨by simpa using h1, by simp at h2; omega, ?_⟩
    intro p hp
    have hmem3 := h3 p
    have hmem4 := h4 p
    simp only [List.map_nil, List.not_mem_nil, false_or] at hmem3 hmem4
    rcases fileOutcome_cases env cfg p with ⟨hs, -, -, -⟩ | ⟨hs, -, -⟩
    · left
      constructor
      · exact hmem3.mpr ⟨hp, hs⟩
      · intro hbad
        have := (hmem4.mp hbad).2
        rw [hs] at this
        simp at this
    · right
      constructor
      · intro hbad
        have := (hmem3.mp hbad).2
        rw [hs] at this
        simp at this
      · exact hmem4.mpr ⟨hp, hs⟩

/-- C10 witness: the partition instantiated on a concrete one-path run. -/
theorem processFiles_partition_witness :
    ((("a.md").data ∈ [("a.md").data]) ∧
      ((processFiles envNone {} {} [("a.md").data]).1.succeeded.length
        + (processFiles envNone {} {} [("a.md").data]).1.failed.length = 1)) ∧
    ((("a.md").data ∈ (processFiles envNone {} {} [("a.md").data]).1.succeeded ∧
        ¬ ("a.md").data ∈ ((processFiles envNone {} {} [("a.md").data]).1.failed.map Prod.fst)) ∨
      (¬ ("a.md").data ∈ (processFiles envNone {} {} [("a.md").data]).1.succeeded ∧
        ("a.md").data ∈ ((processFiles envNone {} {} [("a.md").data]).1.failed.map Prod.fst))) :=
  ⟨⟨by simp, (processFiles_partition.2 envNone {} {} [("a.md").data]).1⟩,
   (processFiles_partition.2 envNone {} {} [("a.md").data]).2.2 (("a.md").data) (by simp)⟩

/-! ## Claim C7: best-effort per-file processing -/

theorem savePlanOk_no_fail (fail : Nat → Bool) (hdb : ∀ k, fail k = false) :
    ∀ (n idx : Nat), savePlanOk fail idx n = true := by
  intro n
  induction n with
  | zero => intro idx; rfl
  | succ n ih =>
    intro idx
    rw [savePlanOk, hdb idx, hdb (idx + 1), ih (idx + 2)]
    rfl

theorem rowIdPresent_applyChunk_self (st : DbState) (c : Chunk) :
    rowIdPresent (applyChunk st c) c.id = true := by
  simp [applyChunk, upsertFtsRow, upsertChunkRow, rowIdPresent, List.any_append]

theorem rowIdPresent_applyChunk_mono (st : DbState) (c : Chunk) (x : Str)
    (h : rowIdPresent st x = true) :
    rowIdPresent (applyChunk st c) x = true := by
  by_cases hx : x = c.id
  · subst hx
    exact rowIdPresent_applyChunk_self st c
  · rw [rowIdPresent, List.any_eq_true] at h ⊢
    obtain ⟨r, hr, hrid⟩ := h
    refine ⟨r, ?_, hrid⟩
    simp only [applyChunk, upsertFtsRow, upsertChunkRow, List.mem_append]
    left
    rw [List.mem_filter]
    refine ⟨hr, ?_⟩
    have : r.id = x := by simpa using hrid
    simp [this, hx]

theorem rowIdPresent_applyChunks_mono (cs : List Chunk) :
    ∀ (st : DbState) (x : Str), rowIdPresent st x = true →
      rowIdPresent (applyChunks st cs) x = true := by
  induction cs with
  | nil => intro st x h; simpa [applyChunks] using h
  | cons c rest ih =>
    intro st x h
    rw [applyChunks, List.foldl_cons]
    exact ih (applyChunk st c) x (rowIdPresent_applyChunk_mono st c x h)

theorem rowIdPresent_applyChunks_mem (cs : List Chunk) :
    ∀ (st : DbState) (c : Chunk), c ∈ cs →
      rowIdPresent (applyChunks st cs) c.id = true := by
  induction cs with
  | nil => intro st c h; simp at h
  | cons c0 rest ih =>
    intro st c hc
    rw [applyChunks, List.foldl_cons]
    rcases List.mem_cons.mp hc with rfl | hrest
    · exact rowIdPresent_applyChunks_mono rest (applyChunk st c) c.id
        (rowIdPresent_applyChunk_self st c)
    · exact ih (applyChunk st c0) c hrest

/-- Model of `processFileAttempt` on a valid markdown file with a healthy provider
and database: the chunks are the paragraph chunks of the content, and the
store gains the whole embedded batch. -/
theorem processFileAttempt_markdown_ok (env : Env) (cfg : ProcessorConfig) (store : DbState)
    (p : Str) (filep : FsFile)
    (hfs : env.fs p = some filep) (hsize : ¬ filep.size > cfg.maxFileSize)
    (htrim : ¬ (trimJs filep.content).length = 0) (hdet : detectFileType p = .markdown)
    (hok : ∀ s, (env.provider s 0).isOk = true) (hbs : 0 < cfg.batchSize)
    (hdb : ∀ k, env.dbFail k = false) :
    processFileAttempt env cfg store p =
      .ok (((paragraphChunk ⟨p, .markdown, env.now⟩
              { maxTokens := some cfg.maxTokens, overlap := some cfg.overlap }
              filep.content).length : Int),
           applyChunks store
             ((paragraphChunk ⟨p, .markdown, env.now⟩
                 { maxTokens := some cfg.maxTokens, overlap := some cfg.overlap }
                 filep.content).map (embeddedChunk env.provider))) := by
  rw [processFileAttempt, hfs]
  dsimp only
  rw [if_neg hsize, if_neg htrim, hdet]
  rw [show factoryChunk env p .markdown
        { maxTokens := some cfg.maxTokens, overlap := some cfg.overlap } filep.content
      = .ok (paragraphChunk ⟨p, .markdown, env.now⟩
          { maxTokens := some cfg.maxTokens, overlap := some cfg.overlap } filep.content)
    from rfl]
  dsimp only
  rw [embedChunks_all_first_ok cfg.maxRetries cfg.batchSize env.provider _ hbs hok]
  dsimp only
  rw [saveChunks_spec, if_pos (savePlanOk_no_fail env.dbFail hdb _ 0)]

/-- C7: processing one valid markdown file and one oversized file together
yields `processedFiles = 1`, the valid path as the only success, exactly one
failure entry — for the oversized path, with the size-limit message — and
every chunk of the valid file is present in the vector store afterwards
(keyed by its content hash).  No failure aborts the batch and `processFiles`
returns normally. -/
theorem processFiles_best_effort_aggregate (env : Env) (cfg : ProcessorConfig) (store : DbState)
    (p q : Str) (filep fileq : FsFile)
    (hfsp : env.fs p = some filep) (hsize : ¬ filep.size > cfg.maxFileSize)
    (htrim : ¬ (trimJs filep.content).length = 0) (hdet : detectFileType p = .markdown)
    (hok : ∀ s, (env.provider s 0).isOk = true) (hbs : 0 < cfg.batchSize)
    (hdb : ∀ k, env.dbFail k = false)
    (hfsq : env.fs q = some fileq) (hbig : fileq.size > cfg.maxFileSize) :
    (processFiles env cfg store [p, q]).1.processedFiles = 1 ∧
    (processFiles env cfg store [p, q]).1.succeeded = [p] ∧
    (processFiles env cfg store [p, q]).1.failed
      = [(q, msgTooLarge fileq.size cfg.maxFileSize)] ∧
    (∀ c ∈ paragraphChunk ⟨p, .markdown, env.now⟩
        { maxTokens := some cfg.maxTokens, overlap := some cfg.overlap } filep.content,
      rowIdPresent (processFiles env cfg store [p, q]).2 (generateChunkId c) = true) := by
  have hatt1 := processFileAttempt_markdown_ok env cfg store p filep hfsp hsize htrim
    hdet hok hbs hdb
  have hpf1 : processFile env cfg store p
      = ({ processedFiles := 1,
           totalChunks := ((paragraphChunk ⟨p, .markdown, env.now⟩
             { maxTokens := some cfg.maxTokens, overlap := some cfg.overlap }
             filep.content).length : Int),
           succeeded := [p], failed := [] },
         applyChunks store
           ((paragraphChunk ⟨p, .markdown, env.now⟩
               { maxTokens := some cfg.maxTokens, overlap := some cfg.overlap }
               filep.content).map (embeddedChunk env.provider))) := by
    rw [processFile, hatt1]
  have hatt2 : processFileAttempt env cfg
      (applyChunks store
        ((paragraphChunk ⟨p, .markdown, env.now⟩
            { maxTokens := some cfg.maxTokens, overlap := some cfg.overlap }
            filep.content).map (embeddedChunk env.provider))) q
      = .error (.processor (msgTooLarge fileq.size cfg.maxFileSize)) := by
    rw [processFileAttempt, hfsq]
    dsimp only
    rw [if_pos hbig]
  have hpf2 : processFile env cfg
      (applyChunks store
        ((paragraphChunk ⟨p, .markdown, env.now⟩
            { maxTokens := some cfg.maxTokens, overlap := some cfg.overlap }
            filep.content).map (embeddedChunk env.provider))) q
      = ({ processedFiles := 0, totalChunks := 0, succeeded := [],
           failed := [(q, msgTooLarge fileq.size cfg.maxFileSize)] },
         applyChunks store
           ((paragraphChunk ⟨p, .markdown, env.now⟩
               { maxTokens := some cfg.maxTokens, overlap := some cfg.overlap }
               filep.content).map (embeddedChunk env.provider))) := by
    rw [processFile, hatt2]
    rfl
  have hstep1 : processFilesStep env cfg ({}, store) p
      = ({ processedFiles := 1,
           totalChunks := ((paragraphChunk ⟨p, .markdown, env.now⟩
             { maxTokens := some cfg.maxTokens, overlap := some cfg.overlap }
             filep.content).length : Int),
           succeeded := [p], failed := [] },
         applyChunks store
           ((paragraphChunk ⟨p, .markdown, env.now⟩
               { maxTokens := some cfg.maxTokens, overlap := some cfg.overlap }
               filep.content).map (embeddedChunk env.provider))) := by
    simp only [processFilesStep, hpf1]
    simp
  have hstep2 : processFilesStep env cfg
      (({ processedFiles := 1,
          totalChunks := ((paragraphChunk ⟨p, .markdown, env.now⟩
            { maxTokens := some cfg.maxTokens, overlap := some cfg.overlap }
            filep.content).length : Int),
          succeeded := [p], failed := [] } : ProcessResult),
       applyChunks store
         ((paragraphChunk ⟨p, .markdown, env.now⟩
             { maxTokens := some cfg.maxTokens, overlap := some cfg.overlap }
             filep.content).map (embeddedChunk env.provider))) q
      = ({ processedFiles := 1,
           totalChunks := ((paragraphChunk ⟨p, .markdown, env.now⟩
             { maxTokens := some cfg.maxTokens, overlap := some cfg.overlap }
             filep.content).length : Int),
           succeeded := [p], failed := [(q, msgTooLarge fileq.size cfg.maxFileSize)] },
         applyChunks store
           ((paragraphChunk ⟨p, .markdown, env.now⟩
               { maxTokens := some cfg.maxTokens, overlap := some cfg.overlap }
               filep.content).map (embeddedChunk env.provider))) := by
    simp only [processFilesStep, hpf2]
    simp
  have hrun : processFiles env cfg store [p, q]
      = ({ processedFiles := 1,
           totalChunks := ((paragraphChunk ⟨p, .markdown, env.now⟩
             { maxTokens := some cfg.maxTokens, overlap := some cfg.overlap }
             filep.content).length : Int),
           succeeded := [p], failed := [(q, msgTooLarge fileq.size cfg.maxFileSize)] },
         applyChunks store
           ((paragraphChunk ⟨p, .markdown, env.now⟩
               { maxTokens := some cfg.maxTokens, overlap := some cfg.overlap }
               filep.content).map (embeddedChunk env.provider))) := by
    rw [processFiles, List.foldl_cons, hstep1, List.foldl_cons, hstep2, List.foldl_nil]
  refine ⟨by rw [hrun], by rw [hrun], by rw [hrun], ?_⟩
  intro c hc
  rw [hrun]
  exact rowIdPresent_applyChunks_mem _ store (embeddedChunk env.provider c)
    (List.mem_map_of_mem _ hc)

/-- C7 witness: the partial-failure aggregate instantiated on the concrete
pair of files, hypotheses discharged by computation. -/
theorem processFiles_best_effort_aggregate_witness :
    (envC7.fs (("good.md").data) = some ⟨5, ("hello").data⟩ ∧
      detectFileType (("good.md").data) = .markdown ∧
      envC7.fs (("big.md").data) = some ⟨10485761, ("x").data⟩ ∧
      (10485761 : Int) > ({} : ProcessorConfig).maxFileSize) ∧
    ((processFiles envC7 {} {} [("good.md").data, ("big.md").data]).1.processedFiles = 1 ∧
      (processFiles envC7 {} {} [("good.md").data, ("big.md").data]).1.succeeded
        = [("good.md").data] ∧
      (processFiles envC7 {} {} [("good.md").data, ("big.md").data]).1.failed
        = [(("big.md").data, msgTooLarge 10485761 ({} : ProcessorConfig).maxFileSize)]) :=
  ⟨⟨by rfl, by decide, by rfl, by decide⟩, by
    obtain ⟨h1, h2, h3, -⟩ :=
      processFiles_best_effort_aggregate envC7 {} {} (("good.md").data) (("big.md").data)
        ⟨5, ("hello").data⟩ ⟨10485761, ("x").data⟩ (by rfl) (by decide) (by decide)
        (by decide) (fun s => rfl) (by decide) (fun k => rfl) (by rfl) (by decide)
    exact ⟨h1, h2, h3⟩⟩

end Rag
